import Mathlib

/-!
Verification of the ecommerce data-generation and bulk-load pipeline.

The source is a JavaScript program in two files: a generator
(`generate-data.js`) that synthesizes customers, products, orders, order
items and payments and serializes them to CSV, and a loader that parses
the CSV files back and inserts them into a SQLite store per-table inside
a transaction.

Modelling conventions, used throughout:
  * Randomness (`faker` calls) is modelled by injected streams of natural
    numbers: each call site draws its value from a stream indexed by the
    call counter, and `faker`'s range contract (`faker.number.int {min, max}`
    returns a value in `[min, max]`, `faker.helpers.arrayElement` returns a
    member of the array) is realized by reducing the drawn number into the
    range with `%`, exactly as a seeded PRNG would.
  * Monetary amounts are integer cents. Product prices are produced by
    `toFixed(2)` in the source, so they are exact two-decimal values;
    `quantity * unit_price` and the incremental accumulation into
    `total_amount` are then exact in cents, and the final `toFixed(2)`
    rounding is the identity on the accumulated value.
  * Timestamps are naturals (milliseconds since the epoch). Serializing a
    `Date` to ISO text and parsing it back (`new Date(iso)`) preserves the
    millisecond value, so the round trip through the string is modelled as
    the identity on the numeric timestamp.
-/

/-- Model of `faker.number.int {min := lo, max := hi}`: given the raw draw
`r` from the random stream, the result is reduced into `[lo, hi]`. -/
def fakerInt (lo hi r : Nat) : Nat :=
  lo + r % (hi + 1 - lo)

/-- Model of `faker.date.between {from := lo, to := hi}` on epoch
milliseconds: the drawn instant is reduced into `[lo, hi]`. -/
def fakerDateBetween (lo hi r : Nat) : Nat :=
  lo + r % (hi + 1 - lo)

/-- Model of `faker.helpers.arrayElement l`: the raw draw `r` selects the
index `r % l.length`. The default `d` is only reached on an empty list,
where the original library call would throw. -/
def arrayElement (l : List α) (d : α) (r : Nat) : α :=
  l.getD (r % l.length) d

theorem fakerInt_le (lo hi r : Nat) (h : lo ≤ hi) : fakerInt lo hi r ≤ hi := by
  have hlt : r % (hi + 1 - lo) < hi + 1 - lo := Nat.mod_lt _ (by omega)
  simp only [fakerInt]
  omega

theorem le_fakerInt (lo hi r : Nat) : lo ≤ fakerInt lo hi r := Nat.le_add_right _ _

theorem fakerDateBetween_le (lo hi r : Nat) (h : lo ≤ hi) :
    fakerDateBetween lo hi r ≤ hi := fakerInt_le lo hi r h

theorem le_fakerDateBetween (lo hi r : Nat) : lo ≤ fakerDateBetween lo hi r :=
  Nat.le_add_right _ _

theorem arrayElement_mem (l : List α) (d : α) (r : Nat) (h : l ≠ []) :
    arrayElement l d r ∈ l := by
  have hlen : 0 < l.length := List.length_pos.mpr h
  have hlt : r % l.length < l.length := Nat.mod_lt _ hlen
  simp only [arrayElement, List.getD_eq_getElem?_getD, List.getElem?_eq_getElem hlt,
    Option.getD_some]
  exact List.getElem_mem hlt

/-! ## Entity records (§3 of the spec, field-for-field from the source) -/

/-- Customer record produced by `generateCustomers`. -/
structure Customer where
  customer_id : Nat
  name : String
  email : String
  signup_date : String
  country : String
  deriving Repr, DecidableEq

/-- Product record produced by `generateProducts`; `price` is in cents. -/
structure Product where
  product_id : Nat
  product_name : String
  category : String
  price : Nat
  stock_quantity : Nat
  deriving Repr, DecidableEq

/-- Order record produced by `generateOrders`; `order_date` is epoch
milliseconds and `total_amount` is in cents. -/
structure Order where
  order_id : Nat
  customer_id : Nat
  order_date : Nat
  total_amount : Nat
  deriving Repr, DecidableEq

/-- Order line item produced by `generateOrderItems`; `unit_price` is in
cents. -/
structure OrderItem where
  order_item_id : Nat
  order_id : Nat
  product_id : Nat
  quantity : Nat
  unit_price : Nat
  deriving Repr, DecidableEq

/-- Payment record produced by `generatePayments`; `payment_date` is epoch
milliseconds. -/
structure Payment where
  payment_id : Nat
  order_id : Nat
  payment_method : String
  payment_status : String
  payment_date : Nat
  deriving Repr, DecidableEq

/-! ## Generators (`generate-data.js`) -/

/-- Model of `generateCustomers count`: ids are `idx + 1`; the textual
fields come from the injected faker streams. -/
def generateCustomers (count : Nat) (names emails dates countries : Nat → String) :
    List Customer :=
  (List.range count).map (fun idx =>
    { customer_id := idx + 1
      name := names idx
      email := emails idx
      signup_date := dates idx
      country := countries idx })

/-- Fixed category list of `generateProducts`. -/
def productCategories : List String :=
  ["Electronics", "Home & Kitchen", "Books", "Clothing",
   "Sports & Outdoors", "Beauty", "Toys", "Automotive"]

/-- Model of `generateProducts count`: ids are `idx + 1`; the price is
`faker.commerce.price {min := 10, max := 500, dec := 2}` in cents, the
category a random element of the category list. -/
def generateProducts (count : Nat) (pnames : Nat → String) (randCat randPrice randStock : Nat → Nat) :
    List Product :=
  (List.range count).map (fun idx =>
    { product_id := idx + 1
      product_name := pnames idx
      category := arrayElement productCategories "" (randCat idx)
      price := fakerInt 1000 50000 (randPrice idx)
      stock_quantity := fakerInt 0 500 (randStock idx) })

/-- Model of `generateOrders count customerCount`: ids are `idx + 1`,
`customer_id` is `faker.number.int {min := 1, max := customerCount}`,
`order_date` lies between one year ago (`startMs`) and now (`nowMs`), and
`total_amount` starts at `0`. -/
def generateOrders (count customerCount : Nat) (startMs nowMs : Nat)
    (randCust randDate : Nat → Nat) : List Order :=
  (List.range count).map (fun idx =>
    { order_id := idx + 1
      customer_id := fakerInt 1 customerCount (randCust idx)
      order_date := fakerDateBetween startMs nowMs (randDate idx)
      total_amount := 0 })

/-- Payment methods list of `generatePayments`. -/
def paymentMethods : List String :=
  ["Credit Card", "Debit Card", "PayPal", "Bank Transfer", "Gift Card"]

/-- Payment statuses list of `generatePayments`. -/
def paymentStatuses : List String := ["Completed", "Pending", "Failed"]

/-- Number of milliseconds in seven days, the payment-date window bound. -/
def sevenDaysMs : Nat := 7 * 24 * 60 * 60 * 1000

/-- Model of `generatePayments orders`: one payment per order, in order of
the orders array; a `Pending` payment is dated exactly at the order date,
any other status between the order date and seven days later. -/
def generatePayments (orders : List Order) (randStatus randMethod randDate : Nat → Nat) :
    List Payment :=
  orders.enum.map (fun p =>
    let idx := p.1
    let order := p.2
    let status := arrayElement paymentStatuses "" (randStatus idx)
    let paymentDate :=
      if status = "Pending" then order.order_date
      else fakerDateBetween order.order_date (order.order_date + sevenDaysMs) (randDate idx)
    { payment_id := idx + 1
      order_id := order.order_id
      payment_method := arrayElement paymentMethods "" (randMethod idx)
      payment_status := status
      payment_date := paymentDate })

/-! ## Order-item generation (`generateOrderItems`)

The source mutates a shared `orderItems` array, a `nextOrderItemId`
counter, and each order's `total_amount` in place. The model threads an
explicit state: since the generated orders have pairwise distinct
`order_id`s, the per-object running totals are represented as a map from
`order_id` to accumulated cents. -/

/-- Placeholder product for the unreachable empty-list branch of
`arrayElement`. -/
def defaultProduct : Product := ⟨0, "", "", 0, 0⟩

/-- Placeholder order for the unreachable empty-list branch of
`arrayElement`. -/
def defaultOrder : Order := ⟨0, 0, 0, 0⟩

/-- Mutable state of `generateOrderItems`: the accumulated items, the
`nextOrderItemId` counter, and each order's running `total_amount` keyed
by `order_id`. -/
structure GenState where
  orderItems : List OrderItem
  nextOrderItemId : Nat
  totals : Nat → Nat

/-- Running totals at entry to `generateOrderItems`: the `total_amount`
currently stored on the order with the given id (orders arrive from
`generateOrders` with `total_amount = 0`). -/
def initTotals (orders : List Order) : Nat → Nat := fun oid =>
  match orders.find? (fun o => o.order_id == oid) with
  | some o => o.total_amount
  | none => 0

/-- The order item built by one call of the `addOrderItem` closure: a
random product, a random quantity in `[1, 5]`, the product's price as the
`unit_price` snapshot, and the next sequential id. -/
def newOrderItem (products : List Product) (rp rq orderId : Nat) (s : GenState) : OrderItem :=
  { order_item_id := s.nextOrderItemId
    order_id := orderId
    product_id := (arrayElement products defaultProduct rp).product_id
    quantity := fakerInt 1 5 rq
    unit_price := (arrayElement products defaultProduct rp).price }

/-- Model of the inner `addOrderItem` closure: pick a random product and
quantity, append the item with the next id, and accumulate
`quantity * unitPrice` into the chosen order's running total. -/
def addOrderItem (products : List Product) (rp rq orderId : Nat) (s : GenState) : GenState :=
  { orderItems := s.orderItems ++ [newOrderItem products rp rq orderId s]
    nextOrderItemId := s.nextOrderItemId + 1
    totals := fun oid =>
      if oid = orderId then
        s.totals oid + fakerInt 1 5 rq * (arrayElement products defaultProduct rp).price
      else s.totals oid }

theorem addOrderItem_length (products : List Product) (rp rq orderId : Nat) (s : GenState) :
    (addOrderItem products rp rq orderId s).orderItems.length = s.orderItems.length + 1 := by
  simp [addOrderItem]

/-- First pass of `generateOrderItems`: walk the orders in id order, and
unless the item budget is already exhausted, give each order one item.
The random streams are indexed by the item counter (one draw pair per
created item). -/
def firstPass (products : List Product) (randP randQ : Nat → Nat) (safeTarget : Nat) :
    List Order → GenState → GenState
  | [], s => s
  | o :: rest, s =>
    if safeTarget ≤ s.orderItems.length then s
    else
      firstPass products randP randQ safeTarget rest
        (addOrderItem products (randP s.orderItems.length) (randQ s.orderItems.length)
          o.order_id s)

/-- Top-up `while` loop of `generateOrderItems`: until the item count
reaches `safeTarget`, add an item to a uniformly random order. -/
def topUp (orders : List Order) (products : List Product) (randP randQ randO : Nat → Nat)
    (safeTarget : Nat) (s : GenState) : GenState :=
  if h : s.orderItems.length < safeTarget then
    topUp orders products randP randQ randO safeTarget
      (addOrderItem products (randP s.orderItems.length) (randQ s.orderItems.length)
        (arrayElement orders defaultOrder (randO s.orderItems.length)).order_id s)
  else s
termination_by safeTarget - s.orderItems.length
decreasing_by simp only [addOrderItem_length]; omega

/-- Model of `generateOrderItems orders products targetCount`: returns the
generated items together with the finalized orders (the source finalizes
each order's `total_amount` in place with `toFixed(2)`, which is the
identity on exact cents). -/
def generateOrderItems (orders : List Order) (products : List Product) (targetCount : Nat)
    (randP randQ randO : Nat → Nat) : List OrderItem × List Order :=
  let safeTarget := max targetCount orders.length
  let s0 : GenState := { orderItems := [], nextOrderItemId := 1, totals := initTotals orders }
  let s1 := firstPass products randP randQ safeTarget orders s0
  let s2 := topUp orders products randP randQ randO safeTarget s1
  (s2.orderItems, orders.map (fun o => { o with total_amount := s2.totals o.order_id }))

/-! ## Invariants of the item-generation loops -/

theorem firstPass_preserves (P : GenState → Prop) (products : List Product)
    (randP randQ : Nat → Nat) (safeTarget : Nat) (ids : List Nat)
    (hstep : ∀ rp rq oid s, oid ∈ ids → P s → P (addOrderItem products rp rq oid s)) :
    ∀ (rest : List Order), (∀ o ∈ rest, o.order_id ∈ ids) →
      ∀ s, P s → P (firstPass products randP randQ safeTarget rest s) := by
  intro rest
  induction rest with
  | nil => intro _ s hs; exact hs
  | cons o tail ih =>
    intro hmem s hs
    simp only [firstPass]
    split
    · exact hs
    · exact ih (fun o' ho' => hmem o' (List.mem_cons_of_mem _ ho')) _
        (hstep _ _ _ _ (hmem o (List.mem_cons_self _ _)) hs)

theorem topUp_preserves (P : GenState → Prop) (orders : List Order) (products : List Product)
    (randP randQ randO : Nat → Nat) (safeTarget : Nat)
    (hne : orders ≠ [])
    (hstep : ∀ rp rq oid s, oid ∈ orders.map Order.order_id → P s →
      P (addOrderItem products rp rq oid s)) :
    ∀ s, P s → P (topUp orders products randP randQ randO safeTarget s) := by
  intro s
  generalize hfuel : safeTarget - s.orderItems.length = fuel
  induction fuel generalizing s with
  | zero =>
    intro hs
    rw [topUp]
    simp only [show ¬ s.orderItems.length < safeTarget by omega, dite_false]
    exact hs
  | succ n ih =>
    intro hs
    rw [topUp]
    by_cases hlt : s.orderItems.length < safeTarget
    · simp only [hlt, dite_true]
      apply ih
      · simp only [addOrderItem_length]; omega
      · refine hstep _ _ _ _ ?_ hs
        exact List.mem_map_of_mem _ (arrayElement_mem orders defaultOrder _ hne)
    · simp only [hlt, dite_false]
      exact hs

theorem firstPass_length (products : List Product) (randP randQ : Nat → Nat) (safeTarget : Nat) :
    ∀ (rest : List Order) (s : GenState),
      s.orderItems.length + rest.length ≤ safeTarget →
      (firstPass products randP randQ safeTarget rest s).orderItems.length =
        s.orderItems.length + rest.length := by
  intro rest
  induction rest with
  | nil => intro s _; simp [firstPass]
  | cons o tail ih =>
    intro s hbound
    simp only [List.length_cons] at hbound
    have hbreak : ¬ safeTarget ≤ s.orderItems.length := by omega
    simp only [firstPass, if_neg hbreak]
    rw [ih _ (by simp only [addOrderItem_length]; omega)]
    simp only [addOrderItem_length, List.length_cons]
    omega

theorem topUp_length (orders : List Order) (products : List Product)
    (randP randQ randO : Nat → Nat) (safeTarget : Nat) :
    ∀ s : GenState,
      (topUp orders products randP randQ randO safeTarget s).orderItems.length =
        max s.orderItems.length safeTarget := by
  intro s
  generalize hfuel : safeTarget - s.orderItems.length = fuel
  induction fuel generalizing s with
  | zero =>
    rw [topUp]
    simp only [show ¬ s.orderItems.length < safeTarget by omega, dite_false]
    omega
  | succ n ih =>
    rw [topUp]
    by_cases hlt : s.orderItems.length < safeTarget
    · simp only [hlt, dite_true]
      rw [ih _ (by simp only [addOrderItem_length]; omega)]
      simp only [addOrderItem_length]
      omega
    · simp only [hlt, dite_false]
      omega

theorem firstPass_items_grow (products : List Product) (randP randQ : Nat → Nat)
    (safeTarget : Nat) (rest : List Order) (s : GenState) :
    ∃ tail, (firstPass products randP randQ safeTarget rest s).orderItems =
      s.orderItems ++ tail := by
  have h := firstPass_preserves
    (fun s' => ∃ tail, s'.orderItems = s.orderItems ++ tail)
    products randP randQ safeTarget (rest.map Order.order_id)
    (by
      intro rp rq oid s' _ hs'
      obtain ⟨t, ht⟩ := hs'
      refine ⟨t ++ [newOrderItem products rp rq oid s'], ?_⟩
      simp [addOrderItem, ht])
    rest (fun o ho => List.mem_map_of_mem _ ho) s ⟨[], (List.append_nil _).symm⟩
  exact h

theorem topUp_items_grow (orders : List Order) (products : List Product)
    (randP randQ randO : Nat → Nat) (safeTarget : Nat) (s : GenState) :
    ∃ tail, (topUp orders products randP randQ randO safeTarget s).orderItems =
      s.orderItems ++ tail := by
  generalize hfuel : safeTarget - s.orderItems.length = fuel
  induction fuel generalizing s with
  | zero =>
    rw [topUp]
    simp only [show ¬ s.orderItems.length < safeTarget by omega, dite_false]
    exact ⟨[], (List.append_nil _).symm⟩
  | succ n ih =>
    rw [topUp]
    by_cases hlt : s.orderItems.length < safeTarget
    · simp only [hlt, dite_true]
      obtain ⟨t, ht⟩ := ih (addOrderItem products (randP s.orderItems.length)
          (randQ s.orderItems.length)
          (arrayElement orders defaultOrder (randO s.orderItems.length)).order_id s)
        (by simp only [addOrderItem_length]; omega)
      rw [ht]
      simp only [addOrderItem, List.append_assoc]
      exact ⟨_, rfl⟩
    · simp only [hlt, dite_false]
      exact ⟨[], (List.append_nil _).symm⟩

theorem firstPass_covers (products : List Product) (randP randQ : Nat → Nat)
    (safeTarget : Nat) :
    ∀ (rest : List Order) (s : GenState),
      s.orderItems.length + rest.length ≤ safeTarget →
      ∀ o ∈ rest, ∃ it ∈ (firstPass products randP randQ safeTarget rest s).orderItems,
        it.order_id = o.order_id := by
  intro rest
  induction rest with
  | nil => intro s _ o ho; exact absurd ho (List.not_mem_nil o)
  | cons o tail ih =>
    intro s hbound o' ho'
    simp only [List.length_cons] at hbound
    have hbreak : ¬ safeTarget ≤ s.orderItems.length := by omega
    simp only [firstPass, if_neg hbreak]
    rcases List.mem_cons.mp ho' with heq | htail
    · subst heq
      have hmem : ∃ it ∈ (addOrderItem products (randP s.orderItems.length)
          (randQ s.orderItems.length) o'.order_id s).orderItems,
          it.order_id = o'.order_id := by
        simp only [addOrderItem]
        exact ⟨_, List.mem_append_right _ (List.mem_singleton_self _), rfl⟩
      obtain ⟨it, hit, hid⟩ := hmem
      obtain ⟨t, ht⟩ := firstPass_items_grow products randP randQ safeTarget tail
        (addOrderItem products (randP s.orderItems.length) (randQ s.orderItems.length)
          o'.order_id s)
      exact ⟨it, by rw [ht]; exact List.mem_append_left _ hit, hid⟩
    · exact ih _ (by simp only [addOrderItem_length]; omega) o' htail

/-! ## Running totals match the generated items -/

/-- Sum of `quantity * unit_price` (in cents) over the items of one order:
the amount the spec requires in `total_amount` after generation. -/
def itemsTotal (oid : Nat) (items : List OrderItem) : Nat :=
  ((items.filter (fun it => it.order_id == oid)).map
    (fun it => it.quantity * it.unit_price)).sum

theorem itemsTotal_append_single (oid : Nat) (l : List OrderItem) (it : OrderItem) :
    itemsTotal oid (l ++ [it]) =
      itemsTotal oid l + (if it.order_id = oid then it.quantity * it.unit_price else 0) := by
  by_cases h : it.order_id = oid
  · simp [itemsTotal, List.filter_append, h]
  · simp [itemsTotal, List.filter_append, h]

theorem addOrderItem_totals_spec (products : List Product) (rp rq orderId : Nat) (s : GenState)
    (hs : ∀ oid, s.totals oid = itemsTotal oid s.orderItems) :
    ∀ oid, (addOrderItem products rp rq orderId s).totals oid =
      itemsTotal oid (addOrderItem products rp rq orderId s).orderItems := by
  intro oid
  simp only [addOrderItem, itemsTotal_append_single, newOrderItem]
  by_cases h : oid = orderId
  · subst h
    simp [hs oid]
  · have h2 : ¬ orderId = oid := fun hh => h hh.symm
    simp [h, h2, hs oid]

/-- Through both passes, the running totals always equal the sum of
`quantity * unit_price` over the items generated so far for each order. -/
theorem generateOrderItems_totals (orders : List Order) (products : List Product)
    (targetCount : Nat) (randP randQ randO : Nat → Nat)
    (hne : orders ≠ []) (hz : ∀ o ∈ orders, o.total_amount = 0) :
    ∀ oid,
      (topUp orders products randP randQ randO (max targetCount orders.length)
        (firstPass products randP randQ (max targetCount orders.length) orders
          ⟨[], 1, initTotals orders⟩)).totals oid =
      itemsTotal oid
        (topUp orders products randP randQ randO (max targetCount orders.length)
          (firstPass products randP randQ (max targetCount orders.length) orders
            ⟨[], 1, initTotals orders⟩)).orderItems := by
  have h0 : ∀ oid, (⟨[], 1, initTotals orders⟩ : GenState).totals oid =
      itemsTotal oid (⟨[], 1, initTotals orders⟩ : GenState).orderItems := by
    intro oid
    simp only [itemsTotal, List.filter_nil, List.map_nil, List.sum_nil]
    simp only [initTotals]
    cases hfind : orders.find? (fun o => o.order_id == oid) with
    | none => rfl
    | some o => exact hz o (List.mem_of_find?_eq_some hfind)
  have h1 := firstPass_preserves
    (fun s => ∀ oid, s.totals oid = itemsTotal oid s.orderItems)
    products randP randQ (max targetCount orders.length) (orders.map Order.order_id)
    (fun rp rq oid s _ hs => addOrderItem_totals_spec products rp rq oid s hs)
    orders (fun o ho => List.mem_map_of_mem _ ho) _ h0
  exact topUp_preserves
    (fun s => ∀ oid, s.totals oid = itemsTotal oid s.orderItems)
    orders products randP randQ randO (max targetCount orders.length) hne
    (fun rp rq oid s _ hs => addOrderItem_totals_spec products rp rq oid s hs) _ h1

/-! ## Sequential order_item_id assignment -/

/-- Invariant tying the `nextOrderItemId` counter to the items created so
far: ids are exactly `1, 2, ...` in creation order. -/
def IdsSequential (s : GenState) : Prop :=
  s.nextOrderItemId = s.orderItems.length + 1 ∧
  ∀ i (h : i < s.orderItems.length), (s.orderItems.get ⟨i, h⟩).order_item_id = i + 1

theorem addOrderItem_ids_spec (products : List Product) (rp rq orderId : Nat) (s : GenState)
    (hs : IdsSequential s) : IdsSequential (addOrderItem products rp rq orderId s) := by
  obtain ⟨h1, h2⟩ := hs
  constructor
  · simp [addOrderItem, h1]
  · intro i h
    simp only [addOrderItem, List.length_append, List.length_singleton] at h
    simp only [addOrderItem, List.get_eq_getElem]
    by_cases hi : i < s.orderItems.length
    · rw [List.getElem_append_left hi]
      have := h2 i hi
      rwa [List.get_eq_getElem] at this
    · have hieq : i = s.orderItems.length := by omega
      subst hieq
      rw [List.getElem_append_right (Nat.le_refl _)]
      simp [newOrderItem, h1]

/-! ## Claim theorems about order-item generation -/

/-- C2: after `generateOrderItems` completes, every finalized order's
`total_amount` equals the sum over the order items assigned to that order
of `quantity * unit_price` (in exact cents, on which rounding to two
decimals is the identity), even though the total was accumulated
incrementally while items were assigned. -/
theorem claim_C2_total_amount_exact (orders : List Order) (products : List Product)
    (targetCount : Nat) (randP randQ randO : Nat → Nat)
    (hne : orders ≠ []) (hz : ∀ o ∈ orders, o.total_amount = 0) :
    ∀ o ∈ (generateOrderItems orders products targetCount randP randQ randO).2,
      o.total_amount =
        itemsTotal o.order_id
          (generateOrderItems orders products targetCount randP randQ randO).1 := by
  intro o ho
  simp only [generateOrderItems] at ho ⊢
  obtain ⟨o0, ho0, rfl⟩ := List.mem_map.mp ho
  exact generateOrderItems_totals orders products targetCount randP randQ randO hne hz
    o0.order_id

theorem claim_C2_total_amount_exact_witness :
    ∃ o ∈ (generateOrderItems [⟨1, 1, 5, 0⟩] [⟨1, "A", "Books", 250, 3⟩] 2
        (fun _ => 0) (fun _ => 0) (fun _ => 0)).2,
      o.total_amount =
        itemsTotal o.order_id
          (generateOrderItems [⟨1, 1, 5, 0⟩] [⟨1, "A", "Books", 250, 3⟩] 2
            (fun _ => 0) (fun _ => 0) (fun _ => 0)).1 := by
  have h := claim_C2_total_amount_exact [⟨1, 1, 5, 0⟩] [⟨1, "A", "Books", 250, 3⟩] 2
    (fun _ => 0) (fun _ => 0) (fun _ => 0) (by simp) (by simp)
  obtain ⟨o, ho⟩ : ∃ o, o ∈ (generateOrderItems [⟨1, 1, 5, 0⟩]
      [⟨1, "A", "Books", 250, 3⟩] 2 (fun _ => 0) (fun _ => 0) (fun _ => 0)).2 := by
    simp only [generateOrderItems]
    exact ⟨_, List.mem_map_of_mem _ (List.mem_singleton_self _)⟩
  exact ⟨o, ho, h o ho⟩

/-- C4: for every non-empty order list and every requested item count,
after `generateOrderItems` completes every order has at least one order
item referencing it (the first pass gives each order one item before any
top-up items are assigned). -/
theorem claim_C4_every_order_covered (orders : List Order) (products : List Product)
    (targetCount : Nat) (randP randQ randO : Nat → Nat) (hne : orders ≠ []) :
    ∀ o ∈ orders,
      ∃ it ∈ (generateOrderItems orders products targetCount randP randQ randO).1,
        it.order_id = o.order_id := by
  intro o ho
  simp only [generateOrderItems]
  obtain ⟨it, hit, hid⟩ := firstPass_covers products randP randQ
    (max targetCount orders.length) orders ⟨[], 1, initTotals orders⟩
    (by simp only [List.length_nil, Nat.zero_add]; exact Nat.le_max_right _ _) o ho
  obtain ⟨t, ht⟩ := topUp_items_grow orders products randP randQ randO
    (max targetCount orders.length)
    (firstPass products randP randQ (max targetCount orders.length) orders
      ⟨[], 1, initTotals orders⟩)
  exact ⟨it, by rw [ht]; exact List.mem_append_left _ hit, hid⟩

theorem claim_C4_every_order_covered_witness :
    ∃ it ∈ (generateOrderItems [⟨1, 1, 5, 0⟩, ⟨2, 1, 9, 0⟩] [⟨1, "A", "Books", 250, 3⟩] 1
        (fun _ => 0) (fun _ => 0) (fun _ => 0)).1,
      it.order_id = (⟨2, 1, 9, 0⟩ : Order).order_id :=
  claim_C4_every_order_covered [⟨1, 1, 5, 0⟩, ⟨2, 1, 9, 0⟩] [⟨1, "A", "Books", 250, 3⟩] 1
    (fun _ => 0) (fun _ => 0) (fun _ => 0) (by simp) ⟨2, 1, 9, 0⟩ (by decide)

/-- C10: for every non-empty order list, `generateOrderItems` returns
exactly `max targetCount orders.length` items, and their `order_item_id`s
are assigned contiguously from 1 in creation order. -/
theorem claim_C10_item_count_and_sequential_ids (orders : List Order)
    (products : List Product) (targetCount : Nat) (randP randQ randO : Nat → Nat)
    (hne : orders ≠ []) :
    (generateOrderItems orders products targetCount randP randQ randO).1.length =
      max targetCount orders.length ∧
    ∀ i (h : i < (generateOrderItems orders products targetCount randP randQ randO).1.length),
      ((generateOrderItems orders products targetCount randP randQ randO).1.get
        ⟨i, h⟩).order_item_id = i + 1 := by
  have hfp := firstPass_length products randP randQ (max targetCount orders.length) orders
    ⟨[], 1, initTotals orders⟩
    (by simp only [List.length_nil, Nat.zero_add]; exact Nat.le_max_right _ _)
  constructor
  · simp only [generateOrderItems]
    rw [topUp_length, hfp]
    simp only [List.length_nil, Nat.zero_add]
    omega
  · have h0 : IdsSequential ⟨[], 1, initTotals orders⟩ := by
      refine ⟨rfl, ?_⟩
      intro i h
      simp at h
    have h1 := firstPass_preserves IdsSequential products randP randQ
      (max targetCount orders.length) (orders.map Order.order_id)
      (fun rp rq oid s _ hs => addOrderItem_ids_spec products rp rq oid s hs)
      orders (fun o ho => List.mem_map_of_mem _ ho) _ h0
    have h2 := topUp_preserves IdsSequential orders products randP randQ randO
      (max targetCount orders.length) hne
      (fun rp rq oid s _ hs => addOrderItem_ids_spec products rp rq oid s hs) _ h1
    intro i h
    exact h2.2 i (by simpa [generateOrderItems] using h)

theorem claim_C10_item_count_and_sequential_ids_witness :
    ((generateOrderItems [⟨1, 1, 5, 0⟩, ⟨2, 1, 9, 0⟩] [⟨1, "A", "Books", 250, 3⟩] 5
        (fun _ => 0) (fun _ => 0) (fun _ => 0)).1.length = max 5 [⟨1, 1, 5, 0⟩,
          (⟨2, 1, 9, 0⟩ : Order)].length) ∧
    ∀ i (h : i < (generateOrderItems [⟨1, 1, 5, 0⟩, ⟨2, 1, 9, 0⟩] [⟨1, "A", "Books", 250, 3⟩] 5
        (fun _ => 0) (fun _ => 0) (fun _ => 0)).1.length),
      ((generateOrderItems [⟨1, 1, 5, 0⟩, ⟨2, 1, 9, 0⟩] [⟨1, "A", "Books", 250, 3⟩] 5
        (fun _ => 0) (fun _ => 0) (fun _ => 0)).1.get ⟨i, h⟩).order_item_id = i + 1 :=
  claim_C10_item_count_and_sequential_ids [⟨1, 1, 5, 0⟩, ⟨2, 1, 9, 0⟩]
    [⟨1, "A", "Books", 250, 3⟩] 5 (fun _ => 0) (fun _ => 0) (fun _ => 0) (by simp)

/-! ## Referential integrity of the generated dataset -/

theorem mem_customers_id_iff (cc : Nat) (names emails cdates countries : Nat → String)
    (x : Nat) :
    x ∈ (generateCustomers cc names emails cdates countries).map Customer.customer_id ↔
      1 ≤ x ∧ x ≤ cc := by
  simp only [generateCustomers, List.map_map, List.mem_map, Function.comp, List.mem_range]
  constructor
  · rintro ⟨i, hi, rfl⟩
    omega
  · rintro ⟨h1, h2⟩
    exact ⟨x - 1, by omega, by omega⟩

theorem generateOrders_customer_bounds (count cc startMs nowMs : Nat)
    (randCust randODate : Nat → Nat) (hcc : 1 ≤ cc) :
    ∀ o ∈ generateOrders count cc startMs nowMs randCust randODate,
      1 ≤ o.customer_id ∧ o.customer_id ≤ cc := by
  intro o ho
  simp only [generateOrders, List.mem_map, List.mem_range] at ho
  obtain ⟨i, _, rfl⟩ := ho
  exact ⟨le_fakerInt _ _ _, fakerInt_le _ _ _ hcc⟩

theorem generateOrderItems_snd_map_id (orders : List Order) (products : List Product)
    (targetCount : Nat) (randP randQ randO : Nat → Nat) :
    (generateOrderItems orders products targetCount randP randQ randO).2.map Order.order_id =
      orders.map Order.order_id := by
  simp [generateOrderItems, List.map_map, Function.comp]

theorem generateOrderItems_snd_fields (orders : List Order) (products : List Product)
    (targetCount : Nat) (randP randQ randO : Nat → Nat) :
    ∀ o ∈ (generateOrderItems orders products targetCount randP randQ randO).2,
      ∃ o0 ∈ orders, o.order_id = o0.order_id ∧ o.customer_id = o0.customer_id ∧
        o.order_date = o0.order_date := by
  intro o ho
  simp only [generateOrderItems, List.mem_map] at ho
  obtain ⟨o0, ho0, rfl⟩ := ho
  exact ⟨o0, ho0, rfl, rfl, rfl⟩

theorem addOrderItem_refs_spec (products : List Product) (ids : List Nat)
    (hprod : products ≠ []) (rp rq oid : Nat) (s : GenState) (hoid : oid ∈ ids)
    (hs : ∀ it ∈ s.orderItems,
      it.order_id ∈ ids ∧ it.product_id ∈ products.map Product.product_id) :
    ∀ it ∈ (addOrderItem products rp rq oid s).orderItems,
      it.order_id ∈ ids ∧ it.product_id ∈ products.map Product.product_id := by
  intro it hit
  simp only [addOrderItem, List.mem_append, List.mem_singleton] at hit
  rcases hit with hold | rfl
  · exact hs it hold
  · constructor
    · simpa [newOrderItem] using hoid
    · simp only [newOrderItem]
      exact List.mem_map_of_mem _ (arrayElement_mem products defaultProduct rp hprod)

theorem generateOrderItems_refs (orders : List Order) (products : List Product)
    (targetCount : Nat) (randP randQ randO : Nat → Nat)
    (hne : orders ≠ []) (hprod : products ≠ []) :
    ∀ it ∈ (generateOrderItems orders products targetCount randP randQ randO).1,
      it.order_id ∈ orders.map Order.order_id ∧
      it.product_id ∈ products.map Product.product_id := by
  have h1 := firstPass_preserves
    (fun s => ∀ it ∈ s.orderItems,
      it.order_id ∈ orders.map Order.order_id ∧
      it.product_id ∈ products.map Product.product_id)
    products randP randQ (max targetCount orders.length) (orders.map Order.order_id)
    (fun rp rq oid s hoid hs => addOrderItem_refs_spec products _ hprod rp rq oid s hoid hs)
    orders (fun o ho => List.mem_map_of_mem _ ho) ⟨[], 1, initTotals orders⟩
    (by intro it hit; exact absurd hit (List.not_mem_nil it))
  have h2 := topUp_preserves
    (fun s => ∀ it ∈ s.orderItems,
      it.order_id ∈ orders.map Order.order_id ∧
      it.product_id ∈ products.map Product.product_id)
    orders products randP randQ randO (max targetCount orders.length) hne
    (fun rp rq oid s hoid hs => addOrderItem_refs_spec products _ hprod rp rq oid s hoid hs)
    _ h1
  intro it hit
  exact h2 it (by simpa [generateOrderItems] using hit)

theorem snd_mem_of_mem_enum {l : List α} {p : Nat × α} (h : p ∈ l.enum) : p.2 ∈ l := by
  have hg : l[p.1]? = some p.2 := List.mem_enum_iff_getElem?.mp h
  exact List.getElem?_mem hg

theorem generatePayments_order_id_mem (orders : List Order)
    (randStatus randMethod randDate : Nat → Nat) :
    ∀ p ∈ generatePayments orders randStatus randMethod randDate,
      p.order_id ∈ orders.map Order.order_id := by
  intro p hp
  simp only [generatePayments, List.mem_map] at hp
  obtain ⟨pr, hpr, rfl⟩ := hp
  exact List.mem_map_of_mem _ (snd_mem_of_mem_enum hpr)

/-- C1: referential integrity of the whole generated dataset. For every
run of the pipeline with at least one customer, one product and one
order, every finalized order's `customer_id` is the id of a generated
customer, every order item's `order_id` and `product_id` are ids of a
finalized order and of a generated product, and every payment's
`order_id` is the id of a finalized order: no orphan child records. -/
theorem claim_C1_referential_integrity
    (customerCount productCount orderCount targetCount startMs nowMs : Nat)
    (names emails cdates countries pnames : Nat → String)
    (randCat randPrice randStock randCust randODate randP randQ randO
      randStatus randMethod randPDate : Nat → Nat)
    (hcc : 1 ≤ customerCount) (hpc : 1 ≤ productCount) (hoc : 1 ≤ orderCount) :
    (∀ o ∈ (generateOrderItems
        (generateOrders orderCount customerCount startMs nowMs randCust randODate)
        (generateProducts productCount pnames randCat randPrice randStock)
        targetCount randP randQ randO).2,
      o.customer_id ∈ (generateCustomers customerCount names emails cdates
        countries).map Customer.customer_id) ∧
    (∀ it ∈ (generateOrderItems
        (generateOrders orderCount customerCount startMs nowMs randCust randODate)
        (generateProducts productCount pnames randCat randPrice randStock)
        targetCount randP randQ randO).1,
      it.order_id ∈ ((generateOrderItems
        (generateOrders orderCount customerCount startMs nowMs randCust randODate)
        (generateProducts productCount pnames randCat randPrice randStock)
        targetCount randP randQ randO).2).map Order.order_id ∧
      it.product_id ∈ (generateProducts productCount pnames randCat randPrice
        randStock).map Product.product_id) ∧
    (∀ p ∈ generatePayments (generateOrderItems
        (generateOrders orderCount customerCount startMs nowMs randCust randODate)
        (generateProducts productCount pnames randCat randPrice randStock)
        targetCount randP randQ randO).2 randStatus randMethod randPDate,
      p.order_id ∈ ((generateOrderItems
        (generateOrders orderCount customerCount startMs nowMs randCust randODate)
        (generateProducts productCount pnames randCat randPrice randStock)
        targetCount randP randQ randO).2).map Order.order_id) := by
  set customers := generateCustomers customerCount names emails cdates countries with hc1
  set products := generateProducts productCount pnames randCat randPrice randStock with hc2
  set orders := generateOrders orderCount customerCount startMs nowMs randCust randODate
    with hc3
  set gen := generateOrderItems orders products targetCount randP randQ randO with hc4
  have hone : orders ≠ [] := by
    simp only [orders, generateOrders]
    intro hcontra
    have := congrArg List.length hcontra
    simp at this
    omega
  have hprod : products ≠ [] := by
    simp only [products, generateProducts]
    intro hcontra
    have := congrArg List.length hcontra
    simp at this
    omega
  refine ⟨?_, ?_, ?_⟩
  · intro o ho
    obtain ⟨o0, ho0, _, hcust, _⟩ := generateOrderItems_snd_fields orders products
      targetCount randP randQ randO o ho
    rw [mem_customers_id_iff, hcust]
    exact generateOrders_customer_bounds orderCount customerCount startMs nowMs
      randCust randODate hcc o0 ho0
  · intro it hit
    have h := generateOrderItems_refs orders products targetCount randP randQ randO
      hone hprod it hit
    rwa [← generateOrderItems_snd_map_id orders products targetCount randP randQ randO] at h
  · intro p hp
    exact generatePayments_order_id_mem gen.2 randStatus randMethod randPDate p hp

theorem claim_C1_referential_integrity_witness :
    (∀ o ∈ (generateOrderItems (generateOrders 1 2 0 9 (fun _ => 0) (fun _ => 0))
        (generateProducts 1 (fun _ => "p") (fun _ => 0) (fun _ => 0) (fun _ => 0))
        2 (fun _ => 0) (fun _ => 0) (fun _ => 0)).2,
      o.customer_id ∈ (generateCustomers 2 (fun _ => "n") (fun _ => "e") (fun _ => "d")
        (fun _ => "c")).map Customer.customer_id) ∧
    (∀ it ∈ (generateOrderItems (generateOrders 1 2 0 9 (fun _ => 0) (fun _ => 0))
        (generateProducts 1 (fun _ => "p") (fun _ => 0) (fun _ => 0) (fun _ => 0))
        2 (fun _ => 0) (fun _ => 0) (fun _ => 0)).1,
      it.order_id ∈ ((generateOrderItems (generateOrders 1 2 0 9 (fun _ => 0) (fun _ => 0))
        (generateProducts 1 (fun _ => "p") (fun _ => 0) (fun _ => 0) (fun _ => 0))
        2 (fun _ => 0) (fun _ => 0) (fun _ => 0)).2).map Order.order_id ∧
      it.product_id ∈ (generateProducts 1 (fun _ => "p") (fun _ => 0) (fun _ => 0)
        (fun _ => 0)).map Product.product_id) ∧
    (∀ p ∈ generatePayments (generateOrderItems
        (generateOrders 1 2 0 9 (fun _ => 0) (fun _ => 0))
        (generateProducts 1 (fun _ => "p") (fun _ => 0) (fun _ => 0) (fun _ => 0))
        2 (fun _ => 0) (fun _ => 0) (fun _ => 0)).2 (fun _ => 0) (fun _ => 0) (fun _ => 0),
      p.order_id ∈ ((generateOrderItems (generateOrders 1 2 0 9 (fun _ => 0) (fun _ => 0))
        (generateProducts 1 (fun _ => "p") (fun _ => 0) (fun _ => 0) (fun _ => 0))
        2 (fun _ => 0) (fun _ => 0) (fun _ => 0)).2).map Order.order_id) :=
  claim_C1_referential_integrity 2 1 1 2 0 9 (fun _ => "n") (fun _ => "e") (fun _ => "d")
    (fun _ => "c") (fun _ => "p") (fun _ => 0) (fun _ => 0) (fun _ => 0) (fun _ => 0)
    (fun _ => 0) (fun _ => 0) (fun _ => 0) (fun _ => 0) (fun _ => 0) (fun _ => 0)
    (fun _ => 0) (by omega) (by omega) (by omega)

/-! ## Payment generation properties -/

/-- C8: `generatePayments` produces exactly one payment per order; a
payment with status `Pending` is dated exactly at its order's
`order_date`, and a payment with any other status is dated between the
order date and the order date plus seven days. Uniqueness (one payment
per order id) additionally uses that the generated order ids are
pairwise distinct, as they are in the pipeline. -/
theorem claim_C8_payments (orders : List Order) (randS randM randD : Nat → Nat)
    (hnd : (orders.map Order.order_id).Nodup) :
    let pays := generatePayments orders randS randM randD
    pays.length = orders.length ∧
    (∀ i (hp : i < pays.length) (ho : i < orders.length),
      (pays.get ⟨i, hp⟩).order_id = (orders.get ⟨i, ho⟩).order_id ∧
      ((pays.get ⟨i, hp⟩).payment_status = "Pending" →
        (pays.get ⟨i, hp⟩).payment_date = (orders.get ⟨i, ho⟩).order_date) ∧
      ((pays.get ⟨i, hp⟩).payment_status ≠ "Pending" →
        (orders.get ⟨i, ho⟩).order_date ≤ (pays.get ⟨i, hp⟩).payment_date ∧
        (pays.get ⟨i, hp⟩).payment_date ≤ (orders.get ⟨i, ho⟩).order_date + sevenDaysMs)) ∧
    (∀ o ∈ orders,
      (pays.filter (fun p => p.order_id == o.order_id)).length = 1) := by
  intro pays
  refine ⟨by simp [pays, generatePayments, List.enum_length], ?_, ?_⟩
  · intro i hp ho
    have hlen : i < orders.enum.length := by simpa [List.enum_length] using ho
    have hget : pays.get ⟨i, hp⟩ =
        (fun p : Nat × Order =>
          let idx := p.1
          let order := p.2
          let status := arrayElement paymentStatuses "" (randS idx)
          let paymentDate :=
            if status = "Pending" then order.order_date
            else fakerDateBetween order.order_date (order.order_date + sevenDaysMs)
              (randD idx)
          { payment_id := idx + 1
            order_id := order.order_id
            payment_method := arrayElement paymentMethods "" (randM idx)
            payment_status := status
            payment_date := paymentDate }) (i, orders.get ⟨i, ho⟩) := by
      simp only [pays, generatePayments, List.get_eq_getElem, List.getElem_map,
        List.getElem_enum]
    rw [hget]
    by_cases hstat : arrayElement paymentStatuses "" (randS i) = "Pending"
    · refine ⟨rfl, ?_, ?_⟩
      · intro _
        simp [hstat]
      · intro hcontra
        exact absurd (by simpa using hstat) hcontra
    · refine ⟨rfl, ?_, ?_⟩
      · intro hcontra
        exact absurd (by simpa using hcontra) hstat
      · intro _
        simp only [hstat, if_false]
        exact ⟨le_fakerDateBetween _ _ _,
          fakerDateBetween_le _ _ _ (Nat.le_add_right _ _)⟩
  · intro o ho
    rw [← List.countP_eq_length_filter]
    simp only [pays, generatePayments]
    rw [List.countP_map]
    show orders.enum.countP ((fun p : Order => p.order_id == o.order_id) ∘ Prod.snd) = 1
    rw [← List.countP_map, List.enum_map_snd]
    have hcount : orders.countP (fun p => p.order_id == o.order_id) =
        (orders.map Order.order_id).count o.order_id := by
      rw [List.count, List.countP_map]
      rfl
    rw [hcount]
    exact List.count_eq_one_of_mem hnd (List.mem_map_of_mem _ ho)

theorem claim_C8_payments_witness :
    let pays := generatePayments [⟨1, 1, 50, 0⟩, ⟨2, 1, 70, 0⟩] (fun n => n)
      (fun _ => 0) (fun _ => 3)
    pays.length = [⟨1, 1, 50, 0⟩, (⟨2, 1, 70, 0⟩ : Order)].length ∧
    (∀ i (hp : i < pays.length) (ho : i < [⟨1, 1, 50, 0⟩, (⟨2, 1, 70, 0⟩ : Order)].length),
      (pays.get ⟨i, hp⟩).order_id =
        ([⟨1, 1, 50, 0⟩, (⟨2, 1, 70, 0⟩ : Order)].get ⟨i, ho⟩).order_id ∧
      ((pays.get ⟨i, hp⟩).payment_status = "Pending" →
        (pays.get ⟨i, hp⟩).payment_date =
          ([⟨1, 1, 50, 0⟩, (⟨2, 1, 70, 0⟩ : Order)].get ⟨i, ho⟩).order_date) ∧
      ((pays.get ⟨i, hp⟩).payment_status ≠ "Pending" →
        ([⟨1, 1, 50, 0⟩, (⟨2, 1, 70, 0⟩ : Order)].get ⟨i, ho⟩).order_date ≤
          (pays.get ⟨i, hp⟩).payment_date ∧
        (pays.get ⟨i, hp⟩).payment_date ≤
          ([⟨1, 1, 50, 0⟩, (⟨2, 1, 70, 0⟩ : Order)].get ⟨i, ho⟩).order_date + sevenDaysMs)) ∧
    (∀ o ∈ [⟨1, 1, 50, 0⟩, (⟨2, 1, 70, 0⟩ : Order)],
      (pays.filter (fun p => p.order_id == o.order_id)).length = 1) :=
  claim_C8_payments [⟨1, 1, 50, 0⟩, ⟨2, 1, 70, 0⟩] (fun n => n) (fun _ => 0) (fun _ => 3)
    (by simp)

/-! ## CSV serialization (`escapeCsvValue`, `convertToCsv`) -/

/-- The test of the regex `[",\n]` in `escapeCsvValue`: does the string
contain the delimiter, the quote character, or a line break? -/
def csvNeedsQuote (l : List Char) : Bool :=
  l.any (fun c => c = '"' || c = ',' || c = '\n')

/-- The replacement `str.replace(/"/g, ...)` of `escapeCsvValue`: every
quote character is doubled, all other characters are kept. -/
def doubleQuotes : List Char → List Char
  | [] => []
  | c :: rest => if c = '"' then '"' :: '"' :: doubleQuotes rest else c :: doubleQuotes rest

/-- Model of `escapeCsvValue` on a present (non-null) value's string
form: quote and double internal quotes when the value contains a special
character, otherwise return it unchanged. -/
def escapeCsvValue (s : String) : String :=
  if csvNeedsQuote s.data then String.mk ('"' :: (doubleQuotes s.data ++ ['"'])) else s

/-- Model of `escapeCsvValue` including its `null`/`undefined` branch,
which returns the empty string. -/
def escapeCsvValueOpt : Option String → String
  | none => ""
  | some s => escapeCsvValue s

/-- Model of JavaScript `Array.join(sep)`: the empty list joins to the
empty string, otherwise elements are interleaved with the separator. -/
def joinWith (sep : String) : List String → String
  | [] => ""
  | [x] => x
  | x :: y :: xs => x ++ sep ++ joinWith sep (y :: xs)

/-- Model of `convertToCsv records headers`: the raw header line followed
by one escaped line per record, joined by newlines. A record object is
modelled as its list of string-form field values in header order (the
source reads `record[header]` for each header). -/
def convertToCsv (records : List (List String)) (headers : List String) : String :=
  joinWith "\n"
    (joinWith "," headers :: records.map (fun r => joinWith "," (r.map escapeCsvValue)))

/-- C9: `escapeCsvValue` quotes a value exactly when its string form
contains the delimiter, the quote character or a line break; in that case
every internal quote is doubled (the output is the quote-doubled body
wrapped in quotes), and otherwise the value is emitted unchanged. The
`null`/`undefined` branch yields the empty field. -/
theorem claim_C9_escapeCsvValue (s : String) :
    (csvNeedsQuote s.data = true ↔ ∃ c ∈ s.data, c = '"' ∨ c = ',' ∨ c = '\n') ∧
    escapeCsvValue s =
      (if csvNeedsQuote s.data then String.mk ('"' :: (doubleQuotes s.data ++ ['"']))
       else s) ∧
    doubleQuotes s.data =
      (s.data.map (fun c => if c = '"' then ['"', '"'] else [c])).join ∧
    escapeCsvValueOpt none = "" ∧ escapeCsvValueOpt (some s) = escapeCsvValue s := by
  refine ⟨?_, rfl, ?_, rfl, rfl⟩
  · simp only [csvNeedsQuote, List.any_eq_true, decide_eq_true_eq, Bool.or_eq_true]
    constructor
    · rintro ⟨c, hc, h⟩
      exact ⟨c, hc, by tauto⟩
    · rintro ⟨c, hc, h⟩
      exact ⟨c, hc, by tauto⟩
  · induction s.data with
    | nil => rfl
    | cons c rest ih =>
      by_cases hc : c = '"'
      · simp [doubleQuotes, hc, ih]
      · simp [doubleQuotes, hc, ih]

/-! ## CSV parsing

The loader reads the CSV files back with the external `csv-parser`
library. Its tokenization is modelled from the spec: RFC-4180-style
fields, where a field starting with a quote runs to the matching quote
with doubled quotes undoubled, and any other field runs to the next
delimiter or line break. -/

/-- Is the character a field or row separator? -/
def isSepChar (c : Char) : Bool := c = ',' || c = '\n'

/-- Modelled from the spec: consume the body of a quoted field after its
opening quote; a doubled quote is an escaped quote character, a single
quote closes the field. Returns the field content and the remaining
input after the closing quote. -/
def parseQuoted : List Char → List Char × List Char
  | [] => ([], [])
  | c :: rest =>
    if c = '"' then
      if rest = [] then ([], [])
      else if rest.headD ' ' = '"' then
        let pr := parseQuoted rest.tail
        ('"' :: pr.1, pr.2)
      else ([], rest)
    else
      let pr := parseQuoted rest
      (c :: pr.1, pr.2)
termination_by l => l.length
decreasing_by
  · simp only [List.length_cons, List.length_tail]
    omega
  · simp only [List.length_cons]
    omega

/-- Modelled from the spec: consume an unquoted field, which runs to the
next separator (kept in the remaining input) or the end of input. -/
def parseUnquoted : List Char → List Char × List Char
  | [] => ([], [])
  | c :: rest =>
    if isSepChar c then ([], c :: rest)
    else
      let pr := parseUnquoted rest
      (c :: pr.1, pr.2)

/-- Modelled from the spec: consume one field; a field starting with a
quote is parsed quoted, any other field unquoted. -/
def parseCell (l : List Char) : List Char × List Char :=
  if l.headD ' ' = '"' then parseQuoted l.tail else parseUnquoted l

theorem parseQuoted_rest_le (l : List Char) : (parseQuoted l).2.length ≤ l.length := by
  generalize hn : l.length = n
  induction n using Nat.strong_induction_on generalizing l with
  | _ n ih =>
    cases l with
    | nil => simp [parseQuoted]
    | cons c rest =>
      simp only [List.length_cons] at hn
      by_cases hc : c = '"'
      · by_cases hr : rest = []
        · simp [parseQuoted, hc, hr]
        · by_cases hh : rest.headD ' ' = '"'
          · simp only [parseQuoted, if_pos hc, if_neg hr, if_pos hh]
            have := ih rest.tail.length
              (by simp only [List.length_tail]; omega) rest.tail rfl
            simp only [List.length_cons, List.length_tail] at this ⊢
            omega
          · simp only [parseQuoted, if_pos hc, if_neg hr, if_neg hh, List.length_cons]
            omega
      · simp only [parseQuoted, if_neg hc]
        have := ih rest.length (by omega) rest rfl
        omega

theorem parseUnquoted_rest_le (l : List Char) : (parseUnquoted l).2.length ≤ l.length := by
  induction l with
  | nil => simp [parseUnquoted]
  | cons c rest ih =>
    by_cases hc : isSepChar c
    · simp [parseUnquoted, hc]
    · simp only [parseUnquoted, if_neg hc, List.length_cons]
      omega

theorem parseCell_rest_le (l : List Char) : (parseCell l).2.length ≤ l.length := by
  by_cases hc : l.headD ' ' = '"'
  · simp only [parseCell, if_pos hc]
    have h1 := parseQuoted_rest_le l.tail
    have h2 : l.tail.length ≤ l.length := by
      simp only [List.length_tail]
      omega
    omega
  · simp only [parseCell, if_neg hc]
    exact parseUnquoted_rest_le l

/-- Modelled from the spec: consume one row of cells; a comma continues the
row, a line break ends it with more input to come, end of input ends it
for good. -/
def parseRow (l : List Char) : List String × Option (List Char) :=
  let cell := (parseCell l).1
  let rest := (parseCell l).2
  if h1 : rest ≠ [] ∧ rest.headD ' ' = ',' then
    let next := parseRow rest.tail
    (String.mk cell :: next.1, next.2)
  else if rest ≠ [] ∧ rest.headD ' ' = '\n' then
    ([String.mk cell], some rest.tail)
  else ([String.mk cell], none)
termination_by l.length
decreasing_by
  have hle := parseCell_rest_le l
  have hnz : (parseCell l).2.length ≠ 0 := fun hz => h1.1 (List.length_eq_zero.mp hz)
  simp only [List.length_tail]
  omega

theorem parseRow_some_lt (l : List Char) :
    ∀ row rest, parseRow l = (row, some rest) → rest.length < l.length := by
  generalize hn : l.length = n
  induction n using Nat.strong_induction_on generalizing l with
  | _ n ih =>
    intro row rest hrow
    rw [parseRow, Prod.mk.injEq] at hrow
    obtain ⟨hrow1, hrow2⟩ := hrow
    by_cases h1 : (parseCell l).2 ≠ [] ∧ (parseCell l).2.headD ' ' = ','
    · simp only [dif_pos h1] at hrow1 hrow2
      have hle := parseCell_rest_le l
      have hnz : (parseCell l).2.length ≠ 0 := fun hz => h1.1 (List.length_eq_zero.mp hz)
      have htl : (parseCell l).2.tail.length < l.length := by
        simp only [List.length_tail]
        omega
      have hpair : parseRow (parseCell l).2.tail =
          ((parseRow (parseCell l).2.tail).1, some rest) := by
        rw [← hrow2]
      have := ih (parseCell l).2.tail.length (by omega) (parseCell l).2.tail rfl
        (parseRow (parseCell l).2.tail).1 rest hpair
      omega
    · simp only [dif_neg h1] at hrow1 hrow2
      by_cases h2 : (parseCell l).2 ≠ [] ∧ (parseCell l).2.headD ' ' = '\n'
      · simp only [if_pos h2] at hrow1 hrow2
        have hle := parseCell_rest_le l
        have hnz : (parseCell l).2.length ≠ 0 := fun hz => h2.1 (List.length_eq_zero.mp hz)
        have heq : rest = (parseCell l).2.tail := by
          simp only [Option.some.injEq] at hrow2
          exact hrow2.symm
        subst heq
        simp only [List.length_tail]
        omega
      · simp only [if_neg h2] at hrow2
        exact absurd hrow2 (by simp)

/-- Modelled from the spec: split the whole text into rows. -/
def parseRecords (l : List Char) : List (List String) :=
  if h : (parseRow l).2.isSome then
    (parseRow l).1 :: parseRecords ((parseRow l).2.get h)
  else [(parseRow l).1]
termination_by l.length
decreasing_by
  exact parseRow_some_lt l (parseRow l).1 ((parseRow l).2.get h)
    (Prod.ext rfl (Option.some_get h).symm)

/-! ## Round trip of a serialized cell -/

theorem parseUnquoted_exact (v rest : List Char)
    (hv : ∀ c ∈ v, isSepChar c = false)
    (hrest : ∀ c, rest.head? = some c → isSepChar c = true) :
    parseUnquoted (v ++ rest) = (v, rest) := by
  induction v with
  | nil =>
    cases rest with
    | nil => rfl
    | cons c r =>
      have hc := hrest c rfl
      simp [parseUnquoted, hc]
  | cons c v2 ih =>
    have hc : isSepChar c = false := hv c (List.mem_cons_self _ _)
    simp [parseUnquoted, hc, ih (fun c2 h2 => hv c2 (List.mem_cons_of_mem _ h2))]


theorem parseQuoted_exact (v rest : List Char) (hrest : rest.head? ≠ some '"') :
    parseQuoted (doubleQuotes v ++ ('"' :: rest)) = (v, rest) := by
  induction v with
  | nil =>
    simp only [doubleQuotes, List.nil_append]
    cases rest with
    | nil => simp [parseQuoted]
    | cons c2 r2 =>
      have hc2 : ¬ (c2 = '"') := by
        intro hcontra
        exact hrest (by simp [hcontra])
      simp [parseQuoted, hc2]
  | cons c v2 ih =>
    by_cases hc : c = '"'
    · subst hc
      simp only [doubleQuotes, if_pos rfl, List.cons_append]
      simp [parseQuoted, ih]
    · simp only [doubleQuotes, if_neg hc, List.cons_append]
      simp [parseQuoted, hc, ih]

theorem csvNeedsQuote_false_chars (l : List Char) (h : csvNeedsQuote l = false) :
    ∀ c ∈ l, c ≠ '"' ∧ isSepChar c = false := by
  intro c hc
  simp only [csvNeedsQuote, List.any_eq_false, Bool.or_eq_true, decide_eq_true_eq,
    not_or] at h
  obtain ⟨⟨h1, h2⟩, h3⟩ := h c hc
  refine ⟨h1, ?_⟩
  simp [isSepChar, h2, h3]

theorem parseCell_escaped (v : String) (rest : List Char)
    (hrest : ∀ c, rest.head? = some c → isSepChar c = true) :
    parseCell ((escapeCsvValue v).data ++ rest) = (v.data, rest) := by
  by_cases hq : csvNeedsQuote v.data
  · simp only [escapeCsvValue, if_pos hq]
    have hshape : (String.mk ('"' :: (doubleQuotes v.data ++ ['"']))).data ++ rest =
        '"' :: (doubleQuotes v.data ++ ('"' :: rest)) := by
      simp
    rw [hshape]
    have hhead : ('"' :: (doubleQuotes v.data ++ ('"' :: rest))).headD ' ' = '"' := rfl
    simp only [parseCell, if_pos hhead, List.tail_cons]
    refine parseQuoted_exact v.data rest ?_
    intro hcontra
    cases hr : rest.head? with
    | none => rw [hr] at hcontra; exact Option.noConfusion hcontra
    | some c =>
      rw [hr] at hcontra
      have hsep := hrest c hr
      have hceq : c = '"' := by simpa using hcontra
      subst hceq
      simp [isSepChar] at hsep
  · have hid : escapeCsvValue v = v := by simp [escapeCsvValue, hq]
    rw [hid]
    have hchars := csvNeedsQuote_false_chars v.data (by simpa using hq)
    cases hv : v.data with
    | nil =>
      simp only [List.nil_append]
      cases rest with
      | nil => rfl
      | cons c r =>
        have hc := hrest c rfl
        have hcq : ¬ (c = '"') := by
          intro hcontra
          subst hcontra
          simp [isSepChar] at hc
        simp only [parseCell, List.headD_cons, if_neg hcq]
        simp [parseUnquoted, hc]
    | cons c v2 =>
      have hcq : ¬ (c = '"') := (hchars c (by simp [hv])).1
      simp only [List.cons_append, parseCell, List.headD_cons, if_neg hcq]
      have hres := parseUnquoted_exact (c :: v2) rest
        (fun c2 h2 => (hchars c2 (by rw [hv]; exact h2)).2) hrest
      simpa using hres

/-! ## Round trip of serialized rows and whole files -/

theorem parseRow_exact (cells : List String) (rest : List Char)
    (hne : cells ≠ [])
    (hrest : ∀ c, rest.head? = some c → c = '\n') :
    parseRow ((joinWith "," (cells.map escapeCsvValue)).data ++ rest) =
      (cells, if rest = [] then none else some rest.tail) := by
  induction cells with
  | nil => exact absurd rfl hne
  | cons c0 cs ih =>
    cases cs with
    | nil =>
      simp only [List.map_cons, List.map_nil, joinWith]
      rw [parseRow]
      have hcell := parseCell_escaped c0 rest
        (fun c hc => by rw [hrest c hc]; simp [isSepChar])
      rw [hcell]
      cases rest with
      | nil => simp
      | cons cr rr =>
        have hcr : cr = '\n' := hrest cr rfl
        subst hcr
        simp
    | cons c1 cs2 =>
      have hdata : (joinWith ","
            ((c0 :: c1 :: cs2).map escapeCsvValue)).data ++ rest =
          (escapeCsvValue c0).data ++ (',' ::
            ((joinWith "," ((c1 :: cs2).map escapeCsvValue)).data ++ rest)) := by
        simp only [List.map_cons, joinWith, String.data_append]
        simp
      rw [hdata, parseRow]
      have hcell := parseCell_escaped c0
        (',' :: ((joinWith "," ((c1 :: cs2).map escapeCsvValue)).data ++ rest))
        (fun c hc => by
          simp only [List.head?_cons, Option.some.injEq] at hc
          rw [← hc]
          simp [isSepChar])
      rw [hcell]
      have hcond : (',' :: ((joinWith "," ((c1 :: cs2).map escapeCsvValue)).data ++ rest))
            ≠ [] ∧
          (',' :: ((joinWith "," ((c1 :: cs2).map escapeCsvValue)).data ++
            rest)).headD ' ' = ',' := by
        simp
      rw [dif_pos hcond]
      simp only [List.tail_cons]
      rw [ih (List.cons_ne_nil _ _)]

theorem parseRecords_exact (rows : List (List String))
    (hne : rows ≠ []) (hrows : ∀ r ∈ rows, r ≠ []) :
    parseRecords
      (joinWith "\n" (rows.map (fun r => joinWith "," (r.map escapeCsvValue)))).data =
      rows := by
  induction rows with
  | nil => exact absurd rfl hne
  | cons r rs ih =>
    cases rs with
    | nil =>
      simp only [List.map_cons, List.map_nil, joinWith]
      have hrow := parseRow_exact r [] (hrows r (List.mem_cons_self _ _))
        (fun c hc => by simp at hc)
      rw [List.append_nil] at hrow
      simp only [if_pos rfl] at hrow
      rw [parseRecords, hrow]
      simp
    | cons r2 rs2 =>
      have ih2 := ih (List.cons_ne_nil _ _)
        (fun r3 h3 => hrows r3 (List.mem_cons_of_mem _ h3))
      simp only [List.map_cons] at ih2 ⊢
      simp only [joinWith]
      set B := joinWith "\n" (joinWith "," (r2.map escapeCsvValue) ::
        rs2.map (fun r3 => joinWith "," (r3.map escapeCsvValue))) with hB
      have hdata : (joinWith "," (r.map escapeCsvValue) ++ "\n" ++ B).data =
          (joinWith "," (r.map escapeCsvValue)).data ++ ('\n' :: B.data) := by
        simp only [String.data_append]
        simp
      rw [hdata]
      have hrow := parseRow_exact r ('\n' :: B.data) (hrows r (List.mem_cons_self _ _))
        (fun c hc => by
          simp only [List.head?_cons, Option.some.injEq] at hc
          exact hc.symm)
      simp only [if_neg (List.cons_ne_nil _ _), List.tail_cons] at hrow
      rw [parseRecords, hrow]
      simp only [Option.isSome_some, dite_true, Option.get_some]
      rw [ih2]

/-! ## Decimal rendering and parsing of numbers

JavaScript serializes the numeric fields as decimal digit strings
(`String(n)` for integers, `toFixed(2)` for currency); the loader parses
them back with `parseInt`/`parseFloat`. Both directions are modelled on
digit lists. -/

/-- The ten decimal digit characters, the digits `parseInt`/`parseFloat`
recognize. -/
def isDigitChar (c : Char) : Bool :=
  c = '0' || c = '1' || c = '2' || c = '3' || c = '4' ||
  c = '5' || c = '6' || c = '7' || c = '8' || c = '9'

/-- Character for one decimal digit value. -/
def digitChar (m : Nat) : Char := Char.ofNat (m + 48)

/-- Decimal digits of a natural number, most significant first (the JS
`String(n)` rendering for naturals). -/
def natToDigitsAux (n : Nat) (acc : List Char) : List Char :=
  if n < 10 then digitChar (n % 10) :: acc
  else natToDigitsAux (n / 10) (digitChar (n % 10) :: acc)
termination_by n
decreasing_by exact Nat.div_lt_self (by omega) (by omega)

def natToDigits (n : Nat) : List Char := natToDigitsAux n []

/-- Model of JavaScript `String(n)` for a natural number. -/
def natToString (n : Nat) : String := String.mk (natToDigits n)

/-- Numeric value of one digit character. -/
def digitVal (c : Char) : Nat := c.toNat - 48

/-- Value of a most-significant-first digit string. -/
def digitsToNat (l : List Char) : Nat := l.foldl (fun a c => a * 10 + digitVal c) 0

theorem digitChar_mem (m : Nat) (h : m < 10) : isDigitChar (digitChar m) = true := by
  interval_cases m <;> decide

theorem digitVal_digitChar (m : Nat) (h : m < 10) : digitVal (digitChar m) = m := by
  interval_cases m <;> decide

theorem isDigitChar_not_ws (c : Char) (h : isDigitChar c = true) :
    c.isWhitespace = false := by
  simp only [isDigitChar, Bool.or_eq_true, decide_eq_true_eq] at h
  rcases h with ((((((((h|h)|h)|h)|h)|h)|h)|h)|h)|h <;> subst h <;> decide

theorem isDigitChar_not_special (c : Char) (h : isDigitChar c = true) :
    c ≠ '-' ∧ c ≠ '+' ∧ c ≠ '.' ∧ c ≠ '"' ∧ c ≠ ',' ∧ c ≠ '\n' := by
  simp only [isDigitChar, Bool.or_eq_true, decide_eq_true_eq] at h
  rcases h with ((((((((h|h)|h)|h)|h)|h)|h)|h)|h)|h <;> subst h <;> exact ⟨by decide,
    by decide, by decide, by decide, by decide, by decide⟩

theorem natToDigitsAux_append (n : Nat) :
    ∀ acc, natToDigitsAux n acc = natToDigitsAux n [] ++ acc := by
  induction n using Nat.strong_induction_on with
  | _ n ih =>
    intro acc
    by_cases h : n < 10
    · rw [natToDigitsAux]
      conv_rhs => rw [natToDigitsAux]
      simp [h]
    · rw [natToDigitsAux]
      simp only [if_neg h]
      rw [ih (n / 10) (Nat.div_lt_self (by omega) (by omega))]
      conv_rhs => rw [natToDigitsAux]
      simp only [if_neg h]
      rw [ih (n / 10) (Nat.div_lt_self (by omega) (by omega)) [digitChar (n % 10)]]
      simp [List.append_assoc]

theorem natToDigits_small (n : Nat) (h : n < 10) : natToDigits n = [digitChar n] := by
  rw [natToDigits, natToDigitsAux]
  simp [h, Nat.mod_eq_of_lt h]

theorem natToDigits_large (n : Nat) (h : ¬ n < 10) :
    natToDigits n = natToDigits (n / 10) ++ [digitChar (n % 10)] := by
  rw [natToDigits, natToDigitsAux]
  simp only [if_neg h]
  exact natToDigitsAux_append _ _

theorem natToDigits_all_digits (n : Nat) : ∀ c ∈ natToDigits n, isDigitChar c = true := by
  induction n using Nat.strong_induction_on with
  | _ n ih =>
    intro c hc
    by_cases h : n < 10
    · rw [natToDigits_small n h] at hc
      simp only [List.mem_singleton] at hc
      subst hc
      exact digitChar_mem n h
    · rw [natToDigits_large n h] at hc
      rcases List.mem_append.mp hc with h1 | h1
      · exact ih (n / 10) (Nat.div_lt_self (by omega) (by omega)) c h1
      · simp only [List.mem_singleton] at h1
        subst h1
        exact digitChar_mem _ (Nat.mod_lt _ (by omega))

theorem natToDigits_ne_nil (n : Nat) : natToDigits n ≠ [] := by
  by_cases h : n < 10
  · rw [natToDigits_small n h]
    exact List.cons_ne_nil _ _
  · rw [natToDigits_large n h]
    simp

theorem digitsToNat_foldl_shift (l : List Char) :
    ∀ a : Nat, l.foldl (fun a c => a * 10 + digitVal c) a =
      a * 10 ^ l.length + digitsToNat l := by
  induction l with
  | nil => intro a; simp [digitsToNat]
  | cons c rest ih =>
    intro a
    have hc : digitsToNat (c :: rest) = digitVal c * 10 ^ rest.length + digitsToNat rest := by
      rw [digitsToNat, List.foldl_cons, ih (0 * 10 + digitVal c)]
      ring_nf
    rw [List.foldl_cons, ih (a * 10 + digitVal c), hc]
    simp only [List.length_cons]
    ring

theorem digitsToNat_append (l1 l2 : List Char) :
    digitsToNat (l1 ++ l2) = digitsToNat l1 * 10 ^ l2.length + digitsToNat l2 := by
  rw [digitsToNat, List.foldl_append]
  exact digitsToNat_foldl_shift l2 (digitsToNat l1)

theorem digitsToNat_natToDigits (n : Nat) : digitsToNat (natToDigits n) = n := by
  induction n using Nat.strong_induction_on with
  | _ n ih =>
    by_cases h : n < 10
    · rw [natToDigits_small n h]
      simp [digitsToNat, digitVal_digitChar n h]
    · rw [natToDigits_large n h, digitsToNat_append,
        ih (n / 10) (Nat.div_lt_self (by omega) (by omega))]
      have hm : digitsToNat [digitChar (n % 10)] = n % 10 := by
        simp [digitsToNat, digitVal_digitChar _ (Nat.mod_lt _ (by omega : (0:Nat) < 10))]
      rw [hm]
      simp only [List.length_singleton, pow_one]
      omega

theorem takeWhile_all (p : Char → Bool) (l : List Char) (h : ∀ c ∈ l, p c = true) :
    l.takeWhile p = l := by
  induction l with
  | nil => rfl
  | cons c rest ih =>
    simp [List.takeWhile_cons, h c (List.mem_cons_self _ _),
      ih (fun c2 h2 => h c2 (List.mem_cons_of_mem _ h2))]

theorem takeWhile_all_append (p : Char → Bool) (l1 l2 : List Char)
    (h1 : ∀ c ∈ l1, p c = true) (h2 : ∀ c, l2.head? = some c → p c = false) :
    (l1 ++ l2).takeWhile p = l1 ∧ (l1 ++ l2).dropWhile p = l2 := by
  induction l1 with
  | nil =>
    simp only [List.nil_append]
    cases l2 with
    | nil => exact ⟨rfl, rfl⟩
    | cons c rest =>
      have := h2 c rfl
      simp [List.takeWhile_cons, List.dropWhile_cons, this]
  | cons c rest ih =>
    have hc := h1 c (List.mem_cons_self _ _)
    obtain ⟨ht, hd⟩ := ih (fun c2 hm => h1 c2 (List.mem_cons_of_mem _ hm)) 
    simp [List.takeWhile_cons, List.dropWhile_cons, hc, ht, hd]

/-! ## Models of `parseInt` and `parseFloat` (radix 10, no exponent)

The loader applies them to already-trimmed cell text; the exponent forms
never occur in the serialized data, so they are not modelled. -/

/-- Digit-prefix parse shared by both converters: longest leading digit
run, `none` when there is none (the `NaN` case). -/
def jsParseIntCore (l : List Char) : Option Nat :=
  let ds := l.takeWhile isDigitChar
  if ds = [] then none else some (digitsToNat ds)

/-- Model of `Number.parseInt(value, 10)`. -/
def jsParseInt (s : String) : Option Int :=
  if s.data.headD ' ' = '-' then (jsParseIntCore s.data.tail).map (fun n => -(n : Int))
  else if s.data.headD ' ' = '+' then (jsParseIntCore s.data.tail).map (fun n => (n : Int))
  else (jsParseIntCore s.data).map (fun n => (n : Int))

/-- Unsigned part of `parseFloat`: integer digits, optional decimal point
and fraction digits; `NaN` when no digit is found on either side. -/
def jsParseFloatCore (l : List Char) : Option ℚ :=
  let ip := l.takeWhile isDigitChar
  let r1 := l.dropWhile isDigitChar
  if r1.headD ' ' = '.' then
    let fp := r1.tail.takeWhile isDigitChar
    if ip = [] ∧ fp = [] then none
    else some ((digitsToNat ip : ℚ) + (digitsToNat fp : ℚ) / (10 : ℚ) ^ fp.length)
  else if ip = [] then none else some ((digitsToNat ip : ℚ))

/-- Model of `Number.parseFloat(value)`. -/
def jsParseFloat (s : String) : Option ℚ :=
  if s.data.headD ' ' = '-' then (jsParseFloatCore s.data.tail).map (fun q => -q)
  else if s.data.headD ' ' = '+' then jsParseFloatCore s.data.tail
  else jsParseFloatCore s.data

theorem jsParseInt_natToString (n : Nat) : jsParseInt (natToString n) = some (n : Int) := by
  have hdigits := natToDigits_all_digits n
  have hne := natToDigits_ne_nil n
  have hhead : ∀ c, (natToDigits n).headD ' ' = c → isDigitChar c = true := by
    intro c hc
    cases hnd : natToDigits n with
    | nil => exact absurd hnd hne
    | cons c0 rest =>
      rw [hnd] at hc
      simp only [List.headD_cons] at hc
      subst hc
      exact hdigits c0 (by rw [hnd]; exact List.mem_cons_self _ _)
  have hnm : (natToDigits n).headD ' ' ≠ '-' := by
    intro hcontra
    have := hhead '-' hcontra
    exact absurd rfl (isDigitChar_not_special '-' this).1
  have hnp : (natToDigits n).headD ' ' ≠ '+' := by
    intro hcontra
    have := hhead '+' hcontra
    exact absurd rfl (isDigitChar_not_special '+' this).2.1
  simp only [jsParseInt, natToString]
  rw [if_neg hnm, if_neg hnp]
  simp only [jsParseIntCore, takeWhile_all isDigitChar _ hdigits, if_neg hne,
    digitsToNat_natToDigits]
  rfl

/-- Model of `Number(x).toFixed(2)` for an exact amount of `c` cents. -/
def renderCents (c : Nat) : String :=
  natToString (c / 100) ++ "." ++ (if c % 100 < 10 then "0" else "") ++
    natToString (c % 100)

/-- The fraction digits of `renderCents`: always exactly two digits whose
value is `c % 100`. -/
def fracDigits (c : Nat) : List Char :=
  (if c % 100 < 10 then ['0'] else []) ++ natToDigits (c % 100)

theorem fracDigits_spec (c : Nat) :
    (∀ ch ∈ fracDigits c, isDigitChar ch = true) ∧
    (fracDigits c).length = 2 ∧ digitsToNat (fracDigits c) = c % 100 := by
  have hlt : c % 100 < 100 := Nat.mod_lt _ (by omega)
  by_cases h : c % 100 < 10
  · refine ⟨?_, ?_, ?_⟩
    · intro ch hch
      simp only [fracDigits, if_pos h, List.singleton_append] at hch
      rcases List.mem_cons.mp hch with rfl | hm
      · decide
      · exact natToDigits_all_digits _ ch hm
    · simp [fracDigits, if_pos h, natToDigits_small _ h]
    · simp only [fracDigits, if_pos h, List.singleton_append, natToDigits_small _ h]
      simp [digitsToNat, digitVal_digitChar _ h]
      decide
  · refine ⟨?_, ?_, ?_⟩
    · intro ch hch
      simp only [fracDigits, if_neg h, List.nil_append] at hch
      exact natToDigits_all_digits _ ch hch
    · simp only [fracDigits, if_neg h, List.nil_append]
      rw [natToDigits_large _ h, natToDigits_small _ (by omega : c % 100 / 10 < 10)]
      simp
    · simp only [fracDigits, if_neg h, List.nil_append]
      exact digitsToNat_natToDigits _

theorem renderCents_data (c : Nat) :
    (renderCents c).data = natToDigits (c / 100) ++ ('.' :: fracDigits c) := by
  by_cases h : c % 100 < 10
  · simp only [renderCents, fracDigits, if_pos h, String.data_append, natToString]
    simp
  · simp only [renderCents, fracDigits, if_neg h, String.data_append, natToString]
    simp

theorem cast_div_add_mod_100 (c : Nat) :
    ((c / 100 : Nat) : ℚ) + ((c % 100 : Nat) : ℚ) / 100 = (c : ℚ) / 100 := by
  have hmod2 : (c / 100) * 100 + c % 100 = c := by omega
  have hq : ((c / 100 : Nat) : ℚ) * 100 + ((c % 100 : Nat) : ℚ) = (c : ℚ) := by
    exact_mod_cast congrArg (fun n : Nat => (n : ℚ)) hmod2
  field_simp
  linarith

theorem jsParseFloat_renderCents (c : Nat) :
    jsParseFloat (renderCents c) = some ((c : ℚ) / 100) := by
  obtain ⟨hfd, hfl, hfv⟩ := fracDigits_spec c
  have hidigits := natToDigits_all_digits (c / 100)
  have hine := natToDigits_ne_nil (c / 100)
  have hsplit := takeWhile_all_append isDigitChar (natToDigits (c / 100))
    ('.' :: fracDigits c) hidigits
    (by
      intro ch hch
      simp only [List.head?_cons, Option.some.injEq] at hch
      subst hch
      decide)
  have hhead : ∀ ch, ((renderCents c).data).headD ' ' = ch → isDigitChar ch = true := by
    intro ch hch
    rw [renderCents_data] at hch
    cases hnd : natToDigits (c / 100) with
    | nil => exact absurd hnd hine
    | cons c0 rest =>
      rw [hnd] at hch
      simp only [List.cons_append, List.headD_cons] at hch
      subst hch
      exact hidigits c0 (by rw [hnd]; exact List.mem_cons_self _ _)
  have hnm : ((renderCents c).data).headD ' ' ≠ '-' := by
    intro hcontra
    exact absurd rfl (isDigitChar_not_special '-' (hhead '-' hcontra)).1
  have hnp : ((renderCents c).data).headD ' ' ≠ '+' := by
    intro hcontra
    exact absurd rfl (isDigitChar_not_special '+' (hhead '+' hcontra)).2.1
  rw [jsParseFloat, if_neg hnm, if_neg hnp, jsParseFloatCore]
  rw [renderCents_data]
  rw [hsplit.1, hsplit.2]
  simp only [List.headD_cons, if_pos rfl, List.tail_cons]
  rw [takeWhile_all isDigitChar (fracDigits c) hfd]
  have hnonempty : ¬ (natToDigits (c / 100) = [] ∧ fracDigits c = []) := by
    intro hcontra
    exact hine hcontra.1
  rw [if_neg hnonempty, digitsToNat_natToDigits, hfv, hfl]
  norm_num
  exact cast_div_add_mod_100 c

/-! ## Typed converters and the loader's CSV reading (`loadCsv`) -/

/-- A per-column converter as registered in the loader: `toInteger` or
`toFloat` with the reported field name baked in, or the identity for
text columns. The source keys converters by column name; since it
registers exactly one converter per column of the table, the keyed lookup
is modelled positionally. -/
inductive Conv
  | toIntC (field : String)
  | toFloatC (field : String)
  | passC
  deriving Repr, DecidableEq

/-- Model of the loader's `toInteger`: `parseInt` with a fail-fast error
naming the field and the offending raw value. -/
def toInteger (value fieldName : String) : Except String Int :=
  match jsParseInt value with
  | some n => .ok n
  | none =>
    .error ("Invalid integer value for " ++ fieldName ++ ": \"" ++ value ++ "\"")

/-- Model of the loader's `toFloat`: `parseFloat` with a fail-fast error
naming the field and the offending raw value. -/
def toFloat (value fieldName : String) : Except String ℚ :=
  match jsParseFloat value with
  | some q => .ok q
  | none =>
    .error ("Invalid numeric value for " ++ fieldName ++ ": \"" ++ value ++ "\"")

/-- A typed field value produced by the loader's converters. -/
inductive ParsedValue
  | intP (i : Int)
  | numP (q : ℚ)
  | strP (s : String)
  deriving Repr, DecidableEq

/-- Apply one converter to one raw cell. -/
def applyConv : Conv → String → Except String ParsedValue
  | .toIntC field, v => (toInteger v field).map ParsedValue.intP
  | .toFloatC field, v => (toFloat v field).map ParsedValue.numP
  | .passC, v => .ok (.strP v)

/-- Convert all cells of one row, failing on the first bad cell (the
source's `Object.entries(rawRow).map` throws at the first invalid
conversion). A cell without a registered converter passes through. -/
def convertRow : List Conv → List String → Except String (List ParsedValue)
  | _, [] => .ok []
  | [], v :: vs => (convertRow [] vs).map (fun rest => ParsedValue.strP v :: rest)
  | conv :: convs, v :: vs =>
    match applyConv conv v with
    | .ok pv => (convertRow convs vs).map (fun rest => pv :: rest)
    | .error e => .error e

/-- Model of JavaScript `String.trim`, applied by the loader to every
header and cell (`mapHeaders`/`mapValues`). -/
def jsTrim (s : String) : String :=
  String.mk (((s.data.dropWhile Char.isWhitespace).reverse.dropWhile
    Char.isWhitespace).reverse)

/-- The loader's per-row conversion wrapped with the row-level error
context, as in the `stream.destroy(new Error(...))` handler. -/
def convertRowWrapped (fileName : String) (convs : List Conv) (row : List String) :
    Except String (List ParsedValue) :=
  match convertRow convs (row.map jsTrim) with
  | .ok r => .ok r
  | .error e => .error ("Failed to convert row in " ++ fileName ++ ": " ++ e)

/-- Model of `loadCsv fileName converters`: tokenize the text (the
external `csv-parser`, modelled from the spec), drop the header row, trim
and convert every data row; a conversion error rejects the whole table
with the wrapped message and no rows. -/
def loadCsv (fileName text : String) (convs : List Conv) :
    Except String (List (List ParsedValue)) :=
  match parseRecords text.data with
  | [] => .ok []
  | _ :: dataRows => dataRows.mapM (convertRowWrapped fileName convs)

/-! ## The typed record model for the round-trip claim -/

/-- A typed field value of a generated record as it is serialized:
a natural id or count, an exact-cents currency amount rendered with
`toFixed(2)`, or a text field. -/
inductive CsvValue
  | intVal (n : Nat)
  | decVal (cents : Nat)
  | strVal (s : String)
  deriving Repr, DecidableEq

/-- String form in which `convertToCsv` receives the field. -/
def csvValueStr : CsvValue → String
  | .intVal n => natToString n
  | .decVal c => renderCents c
  | .strVal s => s

/-- The typed value the loader is expected to reconstruct: numeric fields
as numbers (an exact rational for currency), text unchanged. -/
def expectedParsed : CsvValue → ParsedValue
  | .intVal n => .intP n
  | .decVal c => .numP ((c : ℚ) / 100)
  | .strVal s => .strP s

/-- Does the registered converter fit the field's kind, as the loader's
converter tables fit the generated tables? -/
def convMatches : Conv → CsvValue → Bool
  | .toIntC _, .intVal _ => true
  | .toFloatC _, .decVal _ => true
  | .passC, .strVal _ => true
  | _, _ => false

/-- A value whose string form carries no incidental whitespace, so the
loader's trimming leaves it intact. -/
def trimInvariant : CsvValue → Bool
  | .strVal s => jsTrim s == s
  | _ => true

/-! ## Lemmas for the round trip through the converters -/

theorem dropWhile_all_false (p : Char → Bool) (l : List Char)
    (h : ∀ c ∈ l, p c = false) : l.dropWhile p = l := by
  cases l with
  | nil => rfl
  | cons c rest => simp [List.dropWhile_cons, h c (List.mem_cons_self _ _)]

theorem jsTrim_eq_self (s : String) (h : ∀ c ∈ s.data, c.isWhitespace = false) :
    jsTrim s = s := by
  have h1 : s.data.dropWhile Char.isWhitespace = s.data := dropWhile_all_false _ _ h
  have h2 : s.data.reverse.dropWhile Char.isWhitespace = s.data.reverse :=
    dropWhile_all_false _ _ (fun c hc => h c (List.mem_reverse.mp hc))
  simp only [jsTrim, h1, h2, List.reverse_reverse]

theorem csvValueStr_trim (v : CsvValue) (hs : trimInvariant v = true) :
    jsTrim (csvValueStr v) = csvValueStr v := by
  cases v with
  | intVal n =>
    apply jsTrim_eq_self
    intro c hc
    exact isDigitChar_not_ws c (natToDigits_all_digits n c
      (by simpa [csvValueStr, natToString] using hc))
  | decVal c =>
    apply jsTrim_eq_self
    intro ch hch
    simp only [csvValueStr] at hch
    rw [renderCents_data] at hch
    rcases List.mem_append.mp hch with hm | hm
    · exact isDigitChar_not_ws ch (natToDigits_all_digits _ ch hm)
    · rcases List.mem_cons.mp hm with rfl | hm2
      · decide
      · exact isDigitChar_not_ws ch ((fracDigits_spec c).1 ch hm2)
  | strVal s =>
    simp only [trimInvariant, beq_iff_eq] at hs
    exact hs

theorem applyConv_expected (conv : Conv) (v : CsvValue) (h : convMatches conv v = true) :
    applyConv conv (csvValueStr v) = .ok (expectedParsed v) := by
  cases conv with
  | toIntC field =>
    cases v with
    | intVal n =>
      simp only [applyConv, csvValueStr, expectedParsed, toInteger,
        jsParseInt_natToString]
      rfl
    | decVal c => simp [convMatches] at h
    | strVal s => simp [convMatches] at h
  | toFloatC field =>
    cases v with
    | intVal n => simp [convMatches] at h
    | decVal c =>
      simp only [applyConv, csvValueStr, expectedParsed, toFloat,
        jsParseFloat_renderCents]
      rfl
    | strVal s => simp [convMatches] at h
  | passC =>
    cases v with
    | intVal n => simp [convMatches] at h
    | decVal c => simp [convMatches] at h
    | strVal s => rfl

theorem convertRow_ok (convs : List Conv) (r : List CsvValue)
    (h : List.Forall₂ (fun cv v => convMatches cv v = true) convs r) :
    convertRow convs (r.map csvValueStr) = .ok (r.map expectedParsed) := by
  induction h with
  | nil => rfl
  | @cons conv v convs2 r2 hcv htail ih =>
    simp only [List.map_cons, convertRow, applyConv_expected conv v hcv, ih]
    rfl

theorem convertRowWrapped_ok (fileName : String) (convs : List Conv) (r : List CsvValue)
    (hmatch : List.Forall₂ (fun cv v => convMatches cv v = true) convs r)
    (htrim : ∀ v ∈ r, trimInvariant v = true) :
    convertRowWrapped fileName convs (r.map csvValueStr) = .ok (r.map expectedParsed) := by
  have hmap : (r.map csvValueStr).map jsTrim = r.map csvValueStr := by
    rw [List.map_map]
    refine List.map_congr_left ?_ |>.trans rfl
    intro v hv
    exact csvValueStr_trim v (htrim v hv)
  simp only [convertRowWrapped, hmap, convertRow_ok convs r hmatch]

theorem mapM_ok_of_all (f : List String → Except String (List ParsedValue))
    (g : List CsvValue → List ParsedValue) (ser : List CsvValue → List String) :
    ∀ rows : List (List CsvValue), (∀ r ∈ rows, f (ser r) = .ok (g r)) →
      (rows.map ser).mapM f = .ok (rows.map g) := by
  intro rows
  induction rows with
  | nil => intro _; rfl
  | cons r rs ih =>
    intro h
    simp only [List.map_cons, List.mapM_cons, h r (List.mem_cons_self _ _),
      ih (fun r2 h2 => h r2 (List.mem_cons_of_mem _ h2))]
    rfl

/-- C5: round trip. Serializing a valid record set with `convertToCsv`
under an ordered header list and parsing the text back with `loadCsv`
using the matching per-field converters reconstructs the records
field-for-field: integer fields as their integer values, currency fields
as the exact rational value of their cents (decimal text may be
normalized), text fields unchanged. Validity means: headers are plain
(no delimiter, quote or line break, at least one column), every record
has one cell per header under a converter of the matching kind, and text
cells carry no incidental surrounding whitespace (the parser trims it). -/
theorem claim_C5_round_trip (fileName : String) (headers : List String)
    (records : List (List CsvValue)) (convs : List Conv)
    (hhead : headers ≠ [])
    (hheadchars : ∀ h ∈ headers, csvNeedsQuote h.data = false)
    (hlen : ∀ r ∈ records, r.length = headers.length)
    (hmatch : ∀ r ∈ records, List.Forall₂ (fun cv v => convMatches cv v = true) convs r)
    (htrim : ∀ r ∈ records, ∀ v ∈ r, trimInvariant v = true) :
    loadCsv fileName
      (convertToCsv (records.map (fun r => r.map csvValueStr)) headers) convs =
      .ok (records.map (fun r => r.map expectedParsed)) := by
  have hheadmap : headers.map escapeCsvValue = headers := by
    have h2 : headers.map escapeCsvValue = headers.map id :=
      List.map_congr_left (fun a ha => by
        rw [escapeCsvValue]
        simp [hheadchars a ha])
    simpa using h2
  have htext : convertToCsv (records.map (fun r => r.map csvValueStr)) headers =
      joinWith "\n" ((headers :: records.map (fun r => r.map csvValueStr)).map
        (fun r => joinWith "," (r.map escapeCsvValue))) := by
    simp only [convertToCsv, List.map_cons, hheadmap]
  have hrows_each : ∀ r ∈ headers :: records.map (fun r => r.map csvValueStr),
      r ≠ [] := by
    intro r hr
    rcases List.mem_cons.mp hr with rfl | hm
    · exact hhead
    · obtain ⟨r0, hr0, rfl⟩ := List.mem_map.mp hm
      intro hcontra
      rw [List.map_eq_nil] at hcontra
      subst hcontra
      have hl0 := hlen [] hr0
      simp only [List.length_nil] at hl0
      have hlp : 0 < headers.length := List.length_pos.mpr hhead
      omega
  have hparse := parseRecords_exact (headers :: records.map (fun r => r.map csvValueStr))
    (List.cons_ne_nil _ _) hrows_each
  rw [htext, loadCsv, hparse]
  exact mapM_ok_of_all (convertRowWrapped fileName convs)
    (fun r => r.map expectedParsed) (fun r => r.map csvValueStr) records
    (fun r hr => convertRowWrapped_ok fileName convs r (hmatch r hr) (htrim r hr))

theorem claim_C5_round_trip_witness :
    loadCsv "t.csv"
      (convertToCsv ([[CsvValue.intVal 7, CsvValue.decVal 1234, CsvValue.strVal "a,b"]].map
        (fun r => r.map csvValueStr)) ["id", "price", "note"])
      [Conv.toIntC "id", Conv.toFloatC "price", Conv.passC] =
      .ok ([[CsvValue.intVal 7, CsvValue.decVal 1234, CsvValue.strVal "a,b"]].map
        (fun r => r.map expectedParsed)) :=
  claim_C5_round_trip "t.csv" ["id", "price", "note"]
    [[CsvValue.intVal 7, CsvValue.decVal 1234, CsvValue.strVal "a,b"]]
    [Conv.toIntC "id", Conv.toFloatC "price", Conv.passC]
    (by decide) (by decide) (by decide)
    (by
      intro r hr
      simp only [List.mem_singleton] at hr
      subst hr
      exact List.Forall₂.cons rfl (List.Forall₂.cons rfl
        (List.Forall₂.cons rfl List.Forall₂.nil)))
    (by decide)

/-! ## Fail-fast behavior of the numeric converters -/

theorem mapM_error_at (f : List String → Except String (List ParsedValue))
    (post : List (List String)) (x : List String) (e : String) :
    ∀ pre : List (List String), (∀ y ∈ pre, ∃ b, f y = .ok b) → f x = .error e →
      (pre ++ x :: post).mapM f = .error e := by
  intro pre
  induction pre with
  | nil =>
    intro _ hx
    rw [List.nil_append, List.mapM_cons, hx]
    rfl
  | cons y ys ih =>
    intro hpre hx
    obtain ⟨b, hb⟩ := hpre y (List.mem_cons_self _ _)
    rw [List.cons_append, List.mapM_cons, hb,
      ih (fun y2 h2 => hpre y2 (List.mem_cons_of_mem _ h2)) hx]
    rfl

/-- C7: a raw text that cannot be converted (`parseInt`/`parseFloat`
yield `NaN`) makes the converter fail fast with an error that reports
the field name and the offending raw value; through `loadCsv`, a row
whose conversion fails rejects the whole table with the wrapped row
error — the remaining rows are aborted, never silently skipped. -/
theorem claim_C7_fail_fast (field raw fileName text : String) (convs : List Conv)
    (hdr row : List String) (pre post : List (List String)) (e : String)
    (hbadInt : jsParseInt raw = none) (hbadFloat : jsParseFloat raw = none)
    (hparse : parseRecords text.data = hdr :: (pre ++ row :: post))
    (hpre : ∀ r ∈ pre, ∃ out, convertRowWrapped fileName convs r = .ok out)
    (hrow : convertRow convs (row.map jsTrim) = .error e) :
    toInteger raw field =
      .error ("Invalid integer value for " ++ field ++ ": \"" ++ raw ++ "\"") ∧
    toFloat raw field =
      .error ("Invalid numeric value for " ++ field ++ ": \"" ++ raw ++ "\"") ∧
    loadCsv fileName text convs =
      .error ("Failed to convert row in " ++ fileName ++ ": " ++ e) := by
  refine ⟨?_, ?_, ?_⟩
  · simp [toInteger, hbadInt]
  · simp [toFloat, hbadFloat]
  · rw [loadCsv, hparse]
    exact mapM_error_at (convertRowWrapped fileName convs) post row
      ("Failed to convert row in " ++ fileName ++ ": " ++ e) pre hpre
      (by simp [convertRowWrapped, hrow])

theorem claim_C7_fail_fast_witness :
    toInteger "abc" "customer_id" =
      .error ("Invalid integer value for " ++ "customer_id" ++ ": \"" ++ "abc" ++ "\"") ∧
    toFloat "abc" "customer_id" =
      .error ("Invalid numeric value for " ++ "customer_id" ++ ": \"" ++ "abc" ++ "\"") ∧
    loadCsv "customers.csv" "customer_id\nabc" [Conv.toIntC "customer_id"] =
      .error ("Failed to convert row in " ++ "customers.csv" ++ ": " ++
        ("Invalid integer value for " ++ "customer_id" ++ ": \"" ++ "abc" ++ "\"")) :=
  claim_C7_fail_fast "customer_id" "abc" "customers.csv" "customer_id\nabc"
    [Conv.toIntC "customer_id"] ["customer_id"] ["abc"] [] []
    ("Invalid integer value for " ++ "customer_id" ++ ": \"" ++ "abc" ++ "\"")
    (by decide) (by decide)
    (by
      have h := parseRecords_exact [["customer_id"], ["abc"]] (by decide) (by decide)
      have harg : joinWith "\n" ([["customer_id"], ["abc"]].map
          (fun r => joinWith "," (r.map escapeCsvValue))) = "customer_id\nabc" := by
        decide
      rw [harg] at h
      simpa using h)
    (by intro r hr; exact absurd hr (List.not_mem_nil r))
    rfl

/-! ## The relational store: schema manager (`createTables`)

The store itself is the external SQLite engine; its DDL semantics
(`DROP TABLE IF EXISTS`, `CREATE TABLE IF NOT EXISTS`) are modelled from
the spec, while the statement lists and their order are from the source. -/

/-- One declared foreign key with its cascade rules. -/
structure ForeignKey where
  column : String
  refTable : String
  refColumn : String
  onDelete : String
  onUpdate : String
  deriving Repr, DecidableEq

/-- Declared schema of one table. -/
structure TableSchema where
  name : String
  columns : List String
  primaryKey : String
  foreignKeys : List ForeignKey
  deriving Repr, DecidableEq

/-- Modelled from the spec: the store state — for each table name its
schema and committed rows, or `none` when the table does not exist. -/
def Store := String → Option (TableSchema × List (List String))

/-- Modelled from the spec: `DROP TABLE IF EXISTS name` — removes the
table when present, never an error. -/
def dropTableIfExists (s : Store) (name : String) : Store :=
  fun t => if t = name then none else s t

/-- Modelled from the spec: `CREATE TABLE [IF NOT EXISTS]` — creates an
empty table; on an existing table it is a no-op with the `IF NOT EXISTS`
clause the source uses, and a duplicate-table error without it. -/
def createTable (ifNotExists : Bool) (s : Store) (sch : TableSchema) :
    Except String Store :=
  match s sch.name with
  | some _ =>
    if ifNotExists then .ok s
    else .error ("table " ++ sch.name ++ " already exists")
  | none => .ok (fun t => if t = sch.name then some (sch, []) else s t)

/-- The `customers` DDL. -/
def customersSchema : TableSchema :=
  { name := "customers"
    columns := ["customer_id", "name", "email", "signup_date", "country"]
    primaryKey := "customer_id"
    foreignKeys := [] }

/-- The `products` DDL. -/
def productsSchema : TableSchema :=
  { name := "products"
    columns := ["product_id", "product_name", "category", "price", "stock_quantity"]
    primaryKey := "product_id"
    foreignKeys := [] }

/-- The `orders` DDL. -/
def ordersSchema : TableSchema :=
  { name := "orders"
    columns := ["order_id", "customer_id", "order_date", "total_amount"]
    primaryKey := "order_id"
    foreignKeys := [⟨"customer_id", "customers", "customer_id", "CASCADE", "CASCADE"⟩] }

/-- The `order_items` DDL. -/
def orderItemsSchema : TableSchema :=
  { name := "order_items"
    columns := ["order_item_id", "order_id", "product_id", "quantity", "unit_price"]
    primaryKey := "order_item_id"
    foreignKeys := [⟨"order_id", "orders", "order_id", "CASCADE", "CASCADE"⟩,
      ⟨"product_id", "products", "product_id", "RESTRICT", "CASCADE"⟩] }

/-- The `payments` DDL. -/
def paymentsSchema : TableSchema :=
  { name := "payments"
    columns := ["payment_id", "order_id", "payment_method", "payment_status",
      "payment_date"]
    primaryKey := "payment_id"
    foreignKeys := [⟨"order_id", "orders", "order_id", "CASCADE", "CASCADE"⟩] }

/-- The drop statements of `createTables`, child tables first. -/
def dropOrder : List String :=
  ["payments", "order_items", "orders", "products", "customers"]

/-- The create statements of `createTables`, parents first. -/
def createOrder : List TableSchema :=
  [customersSchema, productsSchema, ordersSchema, orderItemsSchema, paymentsSchema]

/-- Model of `createTables`: run all drops, then all creates (each with
`IF NOT EXISTS`), in statement order. -/
def createTables (s : Store) : Except String Store :=
  createOrder.foldlM (fun st sch => createTable true st sch)
    (dropOrder.foldl dropTableIfExists s)

/-- The store after one `createTables` run: the five tables fresh and
empty, everything else untouched. -/
def freshSchema (s : Store) : Store := fun t =>
  if t = "customers" then some (customersSchema, [])
  else if t = "products" then some (productsSchema, [])
  else if t = "orders" then some (ordersSchema, [])
  else if t = "order_items" then some (orderItemsSchema, [])
  else if t = "payments" then some (paymentsSchema, [])
  else s t

theorem createTables_eq (s : Store) : createTables s = .ok (freshSchema s) := by
  simp only [createTables, dropOrder, createOrder, List.foldl_cons, List.foldl_nil,
    List.foldlM_cons, List.foldlM_nil, createTable, dropTableIfExists,
    customersSchema, productsSchema, ordersSchema, orderItemsSchema, paymentsSchema]
  norm_num
  refine congrArg Except.ok ?_
  funext t
  simp only [freshSchema, customersSchema, productsSchema, ordersSchema,
    orderItemsSchema, paymentsSchema]
  split_ifs <;> simp_all

theorem freshSchema_idem (s : Store) : freshSchema (freshSchema s) = freshSchema s := by
  funext t
  simp only [freshSchema]
  split_ifs <;> rfl

/-- C6: `createTables` is idempotent. Every run succeeds (`IF NOT
EXISTS` after the drops, so no duplicate-table error), a second run
returns exactly the state of the first, the five tables come out with
their declared schemas and no rows — rows present before the run never
survive it — and tables outside the five are untouched. -/
theorem claim_C6_createTables_idempotent (s : Store) :
    createTables s = .ok (freshSchema s) ∧
    createTables (freshSchema s) = .ok (freshSchema s) ∧
    freshSchema s "customers" = some (customersSchema, []) ∧
    freshSchema s "products" = some (productsSchema, []) ∧
    freshSchema s "orders" = some (ordersSchema, []) ∧
    freshSchema s "order_items" = some (orderItemsSchema, []) ∧
    freshSchema s "payments" = some (paymentsSchema, []) ∧
    (∀ t, t ≠ "customers" → t ≠ "products" → t ≠ "orders" → t ≠ "order_items" →
      t ≠ "payments" → freshSchema s t = s t) := by
  refine ⟨createTables_eq s, ?_, rfl, rfl, rfl, rfl, rfl, ?_⟩
  · rw [createTables_eq (freshSchema s), freshSchema_idem]
  · intro t h1 h2 h3 h4 h5
    simp [freshSchema, h1, h2, h3, h4, h5]

/-! ## The bulk loader (`insertData`)

The insert loop and its error handling are from the source; the
transaction semantics of the store (`BEGIN` / `COMMIT` / `ROLLBACK`
restoring the pre-transaction state) is modelled from the spec. The
constraint checking done by the engine on each `INSERT` is an oracle
`check`, given the table's current in-transaction contents and the new
row's values. -/

/-- Committed rows of the store, per table name. -/
def DbRows := String → List (List String)

/-- The `for (const row of rows)` insert loop inside the transaction:
insert row by row, failing on the first row the store rejects. Returns
the table's final contents, or `none` when a row failed. -/
def insertRowsLoop (check : List (List String) → List String → Bool) :
    List (List String) → List (List String) → Option (List (List String))
  | cur, [] => some cur
  | cur, v :: vs =>
    if check cur v then insertRowsLoop check (cur ++ [v]) vs else none

/-- Model of `insertData db tableName columns rows`: skip empty row sets
with a warning; otherwise run all inserts in one transaction — commit the
new contents on success, roll back to the pre-transaction state and
propagate the failure (`Bool` result `false`) when any row insert fails.
A row object is modelled as its column-lookup function, and the inserted
values are `columns.map row`, as in the source. -/
def insertData (check : List (List String) → List String → Bool) (db : DbRows)
    (tableName : String) (columns : List String) (rows : List (String → String)) :
    DbRows × Bool :=
  if rows.isEmpty then (db, true)
  else
    match insertRowsLoop check (db tableName) (rows.map (fun r => columns.map r)) with
    | some final => (fun t => if t = tableName then final else db t, true)
    | none => (db, false)

/-- C3: per-table atomicity of `insertData`. When inserting any row of a
non-empty row set fails, the failure is propagated to the caller and the
whole store is left exactly as before the call: the target table keeps
only its pre-run rows (zero rows committed from this run) and every
other table — including tables committed by earlier `insertData` calls —
stays fully populated. -/
theorem claim_C3_insertData_atomic (check : List (List String) → List String → Bool)
    (db : DbRows) (tableName : String) (columns : List String)
    (rows : List (String → String)) (hne : rows ≠ [])
    (hfail : insertRowsLoop check (db tableName)
      (rows.map (fun r => columns.map r)) = none) :
    (insertData check db tableName columns rows).2 = false ∧
    ∀ t, (insertData check db tableName columns rows).1 t = db t := by
  have hemp : rows.isEmpty = false := by
    cases rows with
    | nil => exact absurd rfl hne
    | cons r rs => rfl
  constructor
  · simp [insertData, hemp, hfail]
  · intro t
    simp [insertData, hemp, hfail]

theorem claim_C3_insertData_atomic_witness :
    ((insertData (fun _ v => v ≠ ["2", "9"]) (fun _ => [["0", "5"]]) "orders"
        ["order_id", "customer_id"]
        [fun c => if c = "order_id" then "1" else "7",
         fun c => if c = "order_id" then "2" else "9"]).2 = false) ∧
    ∀ t, (insertData (fun _ v => v ≠ ["2", "9"]) (fun _ => [["0", "5"]]) "orders"
        ["order_id", "customer_id"]
        [fun c => if c = "order_id" then "1" else "7",
         fun c => if c = "order_id" then "2" else "9"]).1 t = (fun _ => [["0", "5"]]) t :=
  claim_C3_insertData_atomic (fun _ v => v ≠ ["2", "9"]) (fun _ => [["0", "5"]])
    "orders" ["order_id", "customer_id"]
    [fun c => if c = "order_id" then "1" else "7",
     fun c => if c = "order_id" then "2" else "9"]
    (List.cons_ne_nil _ _) (by decide)
